import Mathlib

/-!
Verification of the WebProwler planning core against its specification.

The definitions below are a shallow embedding of the TypeScript sources:

* the accessibility-tree ref table (`getOrCreateRef`, `resolveRef`,
  `resetRefs` from the snapshot builder),
* the tree serializer (`serializeNode`, `serializeTree`),
* the planner loop (`runPlanner` with its step execution, snapshot
  retries, backoff classification and conversation trimming),
* the task recorder and replayer (`stopRecording`, `replayRecording`).

Machine integers are modelled as `Nat`; JavaScript `Map`/`WeakMap`
objects become functions into `Option`; `WeakRef.deref` becomes a lookup
guarded by an explicit liveness predicate; asynchronous collaborator
calls (page snapshots, model calls, action execution) become oracles
indexed by a call counter, so a run is a pure function of its oracle
environment.  Timestamps (`Date.now()`) are threaded as plain numbers
where the code stores them and fixed to `0` where no property depends on
them.
-/

namespace WebProwler

/-! ### Error classification and backoff (planner, `backoffMs`) -/

/-- The three retryable error classes of `classifyError`:
token-per-minute rate limit, request-per-minute rate limit, and
transient server error.  (`fatal` never reaches `backoffMs`.) -/
inductive ErrKind where
  | tpm
  | rpm
  | server
deriving DecidableEq, Repr

/-- Embeds `backoffMs` from the planner: waits grow geometrically with
the attempt number and are clamped by `Math.min` at a per-kind cap.
`Math.pow(1.5, attempt)` is exact in IEEE doubles for the attempt range
the planner can produce, so the rational model is faithful. -/
def backoffMs (kind : ErrKind) (attempt : Nat) : ℚ :=
  match kind with
  | .tpm => min (15000 * (3 / 2 : ℚ) ^ attempt) 65000
  | .rpm => min (5000 * (2 : ℚ) ^ attempt) 60000
  | .server => min (2000 * (2 : ℚ) ^ attempt) 16000

/-- The per-kind cap of `backoffMs`. -/
def backoffCap (kind : ErrKind) : ℚ :=
  match kind with
  | .tpm => 65000
  | .rpm => 60000
  | .server => 16000

/-! ### Ref management (snapshot builder)

DOM elements are modelled as `Nat` identities.  `elementsByRef` is the
`Map<string, WeakRef<Element>>`, modelled as a function into
`Option Nat` (the stored `WeakRef` target); `refsByElement` is the
`WeakMap<Element, string>`.  `WeakRef.deref` is a lookup guarded by a
liveness predicate `live`: a reclaimed element derefs to `none`. -/

/-- The mutable ref-table state of the snapshot builder:
`refCounter`, `elementsByRef`, `refsByElement`. -/
structure RefState where
  refCounter : Nat
  elementsByRef : String → Option Nat
  refsByElement : Nat → Option String

/-- Embeds `WeakRef.deref`: the element while it is live, else `none`. -/
def derefWeak (live : Nat → Bool) (el : Nat) : Option Nat :=
  if live el then some el else none

/-- The ref string `` `e${k}` `` minted for counter value `k`. -/
def mkRef (k : Nat) : String :=
  "e" ++ Nat.repr k

/-- Embeds `getOrCreateRef`: reuse the existing ref of the element when the
table entry still derefs to this very element, otherwise mint
`` `e${++refCounter}` `` and store the pair in both maps. -/
def getOrCreateRef (live : Nat → Bool) (el : Nat) (st : RefState) :
    String × RefState :=
  let keep : Option String :=
    match st.refsByElement el with
    | some existing =>
      match (st.elementsByRef existing).bind (derefWeak live) with
      | some stored => if stored = el then some existing else none
      | none => none
    | none => none
  match keep with
  | some r => (r, st)
  | none =>
    let r := mkRef (st.refCounter + 1)
    (r,
      { refCounter := st.refCounter + 1,
        elementsByRef := fun s => if s = r then some el else st.elementsByRef s,
        refsByElement := fun e => if e = el then some r else st.refsByElement e })

/-- Embeds `resolveRef`: look the ref up and deref the weak reference,
`?? null` becoming `none`. -/
def resolveRef (live : Nat → Bool) (ref : String) (st : RefState) :
    Option Nat :=
  (st.elementsByRef ref).bind (derefWeak live)

/-- The reset performed at the top of `takeSnapshot`:
`refCounter = 0; elementsByRef.clear();`.  The `WeakMap`
`refsByElement` has no `clear` and keeps its entries. -/
def resetRefs (st : RefState) : RefState :=
  { refCounter := 0, elementsByRef := fun _ => none,
    refsByElement := st.refsByElement }

/-- Ref assignment of one snapshot build over the elements that receive
refs, in traversal order: each element goes through `getOrCreateRef`.
Returns the handed-out refs alongside the final table state. -/
def assignRefs (live : Nat → Bool) :
    List Nat → RefState → List String × RefState
  | [], st => ([], st)
  | el :: rest, st =>
    let p := getOrCreateRef live el st
    let q := assignRefs live rest p.2
    (p.1 :: q.1, q.2)

/-- The empty initial table (module load time). -/
def initialRefState : RefState :=
  { refCounter := 0, elementsByRef := fun _ => none,
    refsByElement := fun _ => none }

/-- Decimal value of a digit character, used to show that distinct
counter values mint distinct ref strings. -/
def decodeDigit (c : Char) : Nat :=
  c.toNat - 48

/-- Left fold reading a digit string back into a number. -/
def valFrom (a : Nat) (l : List Char) : Nat :=
  l.foldl (fun acc c => acc * 10 + decodeDigit c) a

/-- The `elementsByRef` table that results from freshly assigning refs
to `es` in order, starting from counter value `c` over table `f`
(specification helper for `assignRefs`). -/
def tableAfter : List Nat → Nat → (String → Option Nat) → String → Option Nat
  | [], _, f => f
  | el :: rest, c, f =>
    tableAfter rest (c + 1) (fun s => if s = mkRef (c + 1) then some el else f s)

/-! ### Tree serialization (snapshot builder, `serializeNode`)

`PageNode` is the snapshot-tree node of `types/index.ts`; `props` keeps
the `Object.entries` insertion order as an association list. -/

/-- One entry in the snapshot tree (`PageNode` in the source). -/
inductive PageNode where
  | mk (ref role name tag : String) (props : List (String × String))
      (interactive : Bool) (depth : Nat) (children : List PageNode)

def PageNode.ref : PageNode → String
  | .mk r _ _ _ _ _ _ _ => r

def PageNode.role : PageNode → String
  | .mk _ ro _ _ _ _ _ _ => ro

def PageNode.name : PageNode → String
  | .mk _ _ n _ _ _ _ _ => n

def PageNode.tag : PageNode → String
  | .mk _ _ _ t _ _ _ _ => t

def PageNode.props : PageNode → List (String × String)
  | .mk _ _ _ _ p _ _ _ => p

def PageNode.children : PageNode → List PageNode
  | .mk _ _ _ _ _ _ _ cs => cs

/-- Name display truncation: names beyond 80 characters are cut to 77
plus an ellipsis marker. -/
def truncName (s : String) : String :=
  if s.length > 80 then s.take 77 ++ "…" else s

/-- Property-value display truncation: values beyond 60 characters are
cut to 57 plus an ellipsis marker. -/
def truncVal (v : String) : String :=
  if v.length > 60 then v.take 57 ++ "…" else v

/-- Two-space indentation prefix for a node at the given indent. -/
def pad (indent : Nat) : String :=
  String.join (List.replicate indent "  ")

/-- The single serialized line of a node: indent, then
role-or-tag, quoted truncated name, bracketed ref and `key=value`
properties joined by single spaces. -/
def lineOf (n : PageNode) (indent : Nat) : String :=
  let parts : List String :=
    [if n.role = "" then n.tag else n.role] ++
    (if n.name = "" then [] else ["\"" ++ truncName n.name ++ "\""]) ++
    (if n.ref = "" then [] else ["[" ++ n.ref ++ "]"]) ++
    n.props.map (fun kv => kv.1 ++ "=" ++ truncVal kv.2)
  pad indent ++ String.intercalate " " parts

mutual

/-- Embeds `serializeNode`: stop when the accumulated character count
has already reached `maxChars`, otherwise append the line of this node
(counting its length plus one for the newline) and recurse into the
children one indent deeper.  The state is the `lines` array paired with
`charCount.count`. -/
def serializeNode : PageNode → Nat → Nat → List String × Nat → List String × Nat
  | .mk ref role name tag props inter depth children, indent, maxChars, st =>
    if st.2 ≥ maxChars then st
    else
      let line := lineOf (.mk ref role name tag props inter depth children) indent
      serializeChildren children (indent + 1) maxChars
        (st.1 ++ [line], st.2 + line.length + 1)

/-- The `for (const child of node.children)` recursion of
`serializeNode`. -/
def serializeChildren : List PageNode → Nat → Nat → List String × Nat → List String × Nat
  | [], _, _, st => st
  | c :: rest, indent, maxChars, st =>
    serializeChildren rest indent maxChars (serializeNode c indent maxChars st)

end

/-- The serialization part of `takeSnapshot` (filter `all`): serialize
from empty accumulators and join the lines with newlines into the
`tree` field. -/
def serializeTree (n : PageNode) (maxChars : Nat) : String :=
  String.intercalate "\n" (serializeNode n 0 maxChars ([], 0)).1

mutual

/-- Length of the longest line any node of the subtree would serialize
to, at the given starting indent (specification helper for the
truncation bound). -/
def maxLine : PageNode → Nat → Nat
  | .mk ref role name tag props inter depth children, indent =>
    max (lineOf (.mk ref role name tag props inter depth children) indent).length
      (maxLineList children (indent + 1))

/-- List version of `maxLine`. -/
def maxLineList : List PageNode → Nat → Nat
  | [], _ => 0
  | c :: rest, indent => max (maxLine c indent) (maxLineList rest indent)

end

/-- Total character weight of a list of lines: each line counts its
length plus one, matching how `serializeNode` accumulates
`charCount.count`. -/
def linesWeight (ls : List String) : Nat :=
  ls.foldr (fun l a => l.length + 1 + a) 0

/-! ### Actions and planned steps (`types/index.ts`) -/

/-- The `Action` tagged union.  `scroll.direction` is the string union
`up | down`; optional fields become `Option`. -/
inductive Action where
  | click (ref : String)
  | type (ref : String) (text : String) (clear : Option Bool)
  | select (ref : String) (value : String)
  | scroll (direction : String) (amount : Option Nat)
  | navigate (url : String)
  | read (ref : Option String)
  | wait (ms : Nat)
deriving DecidableEq, Repr

/-- A model-produced planned step (`PlannedStep`). -/
structure PlannedStep where
  action : Action
  expectation : Option String
  needsVerification : Bool
deriving DecidableEq, Repr

/-- A parsed model response (`Plan`). -/
structure Plan where
  steps : List PlannedStep
  reasoning : String
deriving DecidableEq, Repr

/-- The per-action result of the executor (`StepResult`); the optional
embedded snapshot is not consulted by the planner and is omitted. -/
structure StepResult where
  success : Bool
  error : Option String
deriving DecidableEq, Repr

/-- A page snapshot as consumed by the planner (`PageSnapshot`). -/
structure PageSnapshot where
  url : String
  title : String
  tree : String
  interactiveCount : Nat
  timestamp : Nat
deriving DecidableEq, Repr

/-! ### Task recorder / replayer (`lib/recorder/index.ts`) -/

/-- One recorded step (`RecordedStep`). -/
structure RecordedStep where
  action : Action
  url : String
  timestamp : Nat
  success : Bool
  error : Option String
deriving DecidableEq, Repr

/-- A recording (`Recording`). -/
structure Recording where
  id : String
  task : String
  startUrl : String
  steps : List RecordedStep
  createdAt : Nat
  duration : Nat
deriving DecidableEq, Repr

/-- Embeds `startRecording`: a fresh active recording with no steps.
The random id suffix is threaded in as a parameter. -/
def startRecording (task startUrl : String) (now : Nat) (rand : String) :
    Recording :=
  { id := "rec_" ++ Nat.repr now ++ "_" ++ rand, task := task,
    startUrl := startUrl, steps := [], createdAt := now, duration := 0 }

/-- Embeds `recordStep`: append one step to the active recording, a
no-op when none is active. -/
def recordStep (action : Action) (url : String) (result : StepResult)
    (now : Nat) (active : Option Recording) : Option Recording :=
  match active with
  | none => none
  | some rec =>
    some { rec with steps := rec.steps ++
      [{ action := action, url := url, timestamp := now,
         success := result.success, error := result.error }] }

/-- What `stopRecording` produces: the value returned to the caller,
the recording handed to `saveRecording` (if any), and the cleared
active-recording state. -/
structure StopOutcome where
  returned : Option Recording
  persisted : Option Recording
  active : Option Recording
deriving DecidableEq, Repr

/-- Embeds `stopRecording`: finalize the duration, clear the active
state, and persist only when some step succeeded. -/
def stopRecording (active : Option Recording) (now : Nat) : StopOutcome :=
  match active with
  | none => { returned := none, persisted := none, active := none }
  | some rec =>
    let final := { rec with duration := now - rec.createdAt }
    { returned := some final,
      persisted := if final.steps.any (fun s => s.success) then some final
        else none,
      active := none }

/-- Inner loop of `replayRecording` over the pre-filtered successful
steps: execute each in order (the executor oracle is indexed by the
replay position), halting at the first failure and reporting its index.
Returns the actions actually executed and `some index` on failure. -/
def replaySteps (exec : Nat → StepResult) :
    List RecordedStep → Nat → List Action × Option Nat
  | [], _ => ([], none)
  | s :: rest, i =>
    let r := exec i
    if r.success then
      let q := replaySteps exec rest (i + 1)
      (s.action :: q.1, q.2)
    else
      ([s.action], some i)

/-- Embeds `replayRecording`: replay only the previously-successful
steps, in their original order. -/
def replayRecording (recd : Recording) (exec : Nat → StepResult) :
    List Action × Option Nat :=
  replaySteps exec (recd.steps.filter (fun s => s.success)) 0

/-! ### Conversation history and trimming (planner) -/

/-- A chat role (`system | user | assistant`). -/
inductive Role where
  | system
  | user
  | assistant
deriving DecidableEq, Repr

/-- One conversation message (`LLMMessage`). -/
structure LLMMessage where
  role : Role
  content : String
deriving DecidableEq, Repr

/-- Embeds `trimConversation` (default `maxMessages = 14`): keep the
system prompt at index 0 and the original task message at index 1, then
`splice` out the middle so that only the most recent
`maxMessages - 2` messages remain after them. -/
def trimConversation (history : List LLMMessage) (maxMessages : Nat) :
    List LLMMessage :=
  if history.length ≤ maxMessages then history
  else
    let keepFromEnd := maxMessages - 2
    let recentStart := history.length - keepFromEnd
    if recentStart ≤ 2 then history
    else history.take 2 ++ history.drop recentStart

/-- One conversation-history operation of a run: the planner only ever
appends messages at the end or trims. -/
inductive ConvOp where
  | push (m : LLMMessage)
  | trim

/-- Apply one operation to the history. -/
def applyOp (h : List LLMMessage) : ConvOp → List LLMMessage
  | .push m => h ++ [m]
  | .trim => trimConversation h 14

/-- Apply a sequence of operations. -/
def applyOps (h : List LLMMessage) : List ConvOp → List LLMMessage
  | [] => h
  | op :: rest => applyOps (applyOp h op) rest

/-! ### Planner loop (`lib/planner/index.ts`, `runPlanner`)

The asynchronous collaborators of the planner become oracles indexed by call
counters: `snap` for `callbacks.getSnapshot()` (an `Except` carrying the
thrown error on failure), `plan` for `getPlanFromLLM` observed at its
contract boundary (a parsed plan plus the raw assistant text that the
function pushes onto the history, or the terminal error it throws after
its internal JSON/API retries), and `exec` for
`callbacks.executeAction`.  Observer callbacks become an event trace.
`Date.now()` timestamps inside placeholder snapshots are fixed to `0`;
no property depends on them. -/

/-- The system prompt (`SYSTEM_PROMPT` in `lib/llm/prompts.ts`); its
text is immaterial to every property proved here and is abbreviated. -/
def SYSTEM_PROMPT : String :=
  "You are WebProwler, an AI web browsing agent."

/-- Embeds `buildUserMessage`. -/
def buildUserMessage (task pageSnapshot : String) : String :=
  "## Current Page\n" ++ pageSnapshot ++ "\n\n## Task\n" ++ task

/-- Embeds `buildVerificationMessage`. -/
def buildVerificationMessage (previousAction newSnapshot : String) : String :=
  "## Action Taken\n" ++ previousAction ++ "\n\n## Updated Page\n" ++
  newSnapshot ++
  "\n\nContinue with the original task. If the action succeeded, proceed to the next step. If it failed, try an alternative approach."

/-- Embeds `formatSnapshot`. -/
def formatSnapshot (s : PageSnapshot) : String :=
  "URL: " ++ s.url ++ "\nTitle: " ++ s.title ++
  "\nInteractive elements: " ++ Nat.repr s.interactiveCount ++ "\n\n" ++
  s.tree

/-- Embeds `describeAction`.  The `clear` flag renders its suffix only
when present and true, matching JS truthiness of `action.clear`. -/
def describeAction : Action → String
  | .click ref => "Clicked [" ++ ref ++ "]"
  | .type ref text clear =>
    "Typed \"" ++ text ++ "\" into [" ++ ref ++ "]" ++
      (match clear with
       | some true => " (cleared first)"
       | _ => "")
  | .select ref value => "Selected \"" ++ value ++ "\" in [" ++ ref ++ "]"
  | .scroll direction _ => "Scrolled " ++ direction
  | .navigate url => "Navigated to " ++ url
  | .read _ => "Read page"
  | .wait ms => "Waited " ++ Nat.repr ms ++ "ms"

/-- Embeds `actionNeedsVerification`: click, navigate and scroll
inherently require verification; type, select, read and wait do not. -/
def actionNeedsVerification : Action → Bool
  | .click _ => true
  | .navigate _ => true
  | .scroll _ _ => true
  | .type _ _ _ => false
  | .select _ _ => false
  | .read _ => false
  | .wait _ => false

/-- The `shouldVerify` expression of the step loop:
`step.needsVerification || actionNeedsVerification(step.action)`. -/
def shouldVerifyStep (step : PlannedStep) : Bool :=
  step.needsVerification || actionNeedsVerification step.action

/-- The string interpolation of `result.error` in the error turn
(JavaScript renders a missing field as `undefined`). -/
def errorText (r : StepResult) : String :=
  match r.error with
  | some e => e
  | none => "undefined"

/-- The placeholder snapshot used when the post-failure snapshot cannot
be acquired. -/
def errorPlaceholder : PageSnapshot :=
  { url := "unknown", title := "unknown", tree := "(unable to read page)",
    interactiveCount := 0, timestamp := 0 }

/-- The placeholder snapshot used when a verification snapshot cannot
be acquired after its retry. -/
def loadingPlaceholder : PageSnapshot :=
  { url := "unknown", title := "unknown",
    tree := "(page is loading or unreachable)", interactiveCount := 0,
    timestamp := 0 }

/-- The terminal message for a double snapshot failure at the top of an
iteration. -/
def cannotReadMsg (retryError : String) : String :=
  "Cannot read page: " ++ retryError ++
  ". The content script may not be loaded on this page."

/-- A successful `getPlanFromLLM` outcome: the parsed plan and the raw
assistant content appended to the history. -/
structure PlanResp where
  plan : Plan
  raw : String
deriving DecidableEq, Repr

/-- Oracle environment for one planner run. -/
structure PlannerEnv where
  snap : Nat → Except String PageSnapshot
  plan : Nat → Except String PlanResp
  exec : Nat → StepResult

/-- Observer-callback events of a run. -/
inductive PlannerEvent where
  | planned (p : Plan)
  | stepStart (index : Nat)
  | stepComplete (success : Bool)
  | completed (reasoning : String)
  | errored (msg : String)
deriving DecidableEq, Repr

/-- Planner run state: collaborator call counters, the conversation
history and the emitted events. -/
structure PlannerState where
  snapCalls : Nat
  planCalls : Nat
  execCalls : Nat
  history : List LLMMessage
  events : List PlannerEvent
deriving DecidableEq, Repr

/-- Append an observer event. -/
def pushEvent (e : PlannerEvent) (st : PlannerState) : PlannerState :=
  { st with events := st.events ++ [e] }

/-- Append a conversation message. -/
def pushMsg (m : LLMMessage) (st : PlannerState) : PlannerState :=
  { st with history := st.history ++ [m] }

/-- One `callbacks.getSnapshot()` call, consuming the next oracle
entry. -/
def getSnapshotOnce (env : PlannerEnv) (st : PlannerState) :
    Except String PageSnapshot × PlannerState :=
  (env.snap st.snapCalls, { st with snapCalls := st.snapCalls + 1 })

/-- The snapshot acquisition at the top of each iteration: on failure
wait a fixed delay and retry exactly once, surfacing the retry error. -/
def acquireTopSnapshot (env : PlannerEnv) (st : PlannerState) :
    Except String PageSnapshot × PlannerState :=
  match getSnapshotOnce env st with
  | (.ok s, st₁) => (.ok s, st₁)
  | (.error _, st₁) => getSnapshotOnce env st₁

/-- The snapshot acquisition after a failed action: a single attempt,
degrading immediately to the minimal-context placeholder. -/
def acquireErrorSnapshot (env : PlannerEnv) (st : PlannerState) :
    PageSnapshot × PlannerState :=
  match getSnapshotOnce env st with
  | (.ok s, st₁) => (s, st₁)
  | (.error _, st₁) => (errorPlaceholder, st₁)

/-- The verification-snapshot acquisition: one retry after a longer
delay, then the loading placeholder. -/
def acquireVerifySnapshot (env : PlannerEnv) (st : PlannerState) :
    PageSnapshot × PlannerState :=
  match getSnapshotOnce env st with
  | (.ok s, st₁) => (s, st₁)
  | (.error _, st₁) =>
    match getSnapshotOnce env st₁ with
    | (.ok s, st₂) => (s, st₂)
    | (.error _, st₂) => (loadingPlaceholder, st₂)

/-- The step-execution loop of one iteration (source step 5): execute
each step in order; on failure push one error turn and stop the batch;
on success of a verification-flagged step that is not the last of the
batch, push one verification turn and stop; otherwise continue.
Returns the updated state and the `needsReplan` flag. -/
def execSteps (env : PlannerEnv) :
    List PlannedStep → Nat → PlannerState → PlannerState × Bool
  | [], _, st => (st, false)
  | step :: rest, i, st =>
    let st₁ := pushEvent (.stepStart i) st
    let r := env.exec st₁.execCalls
    let st₂ := pushEvent (.stepComplete r.success)
      { st₁ with execCalls := st₁.execCalls + 1 }
    if r.success = false then
      let p := acquireErrorSnapshot env st₂
      (pushMsg
        { role := .user,
            content := "## Error\nAction failed: " ++ errorText r ++ "\n\n" ++
              buildVerificationMessage (describeAction step.action)
                (formatSnapshot p.1) } p.2, true)
    else if shouldVerifyStep step && !rest.isEmpty then
      let p := acquireVerifySnapshot env st₂
      (pushMsg
        { role := .user,
            content := buildVerificationMessage (describeAction step.action)
              (formatSnapshot p.1) } p.2, true)
    else
      execSteps env rest (i + 1) st₂

/-- Outcome of one iteration: the run either terminates (`done`, after
a completion or a terminal error) or loops (`next`). -/
inductive IterResult where
  | done (st : PlannerState)
  | next (st : PlannerState)
deriving DecidableEq, Repr

/-- The run state carried by either outcome. -/
def IterResult.state : IterResult → PlannerState
  | .done st => st
  | .next st => st

/-- Source step 5 continuation for a non-empty batch: execute the steps
with checkpoint logic; when no mid-batch stop occurred, take the final
verification snapshot and append the end-of-batch verification turn
referencing the last step; then apply the context trimming of step 7. -/
def iterExecutePhase (env : PlannerEnv) (presp : PlanResp)
    (st₄ : PlannerState) : PlannerState :=
  let q := execSteps env presp.plan.steps 0 st₄
  let st₅ :=
    if q.2 then q.1
    else
      let p := acquireVerifySnapshot env q.1
      match presp.plan.steps.getLast? with
      | some lastStep =>
        pushMsg { role := .user,
                  content := buildVerificationMessage
                    (describeAction lastStep.action)
                    (formatSnapshot p.1) } p.2
      | none => p.2
  { st₅ with history := trimConversation st₅.history 14 }

/-- Continuation once `getPlanFromLLM` returned a plan: push the raw
assistant output, report the plan, complete on an empty step list,
otherwise run the batch. -/
def iterPlanPhase (env : PlannerEnv) (presp : PlanResp)
    (st₃ : PlannerState) : IterResult :=
  let st₄ := pushEvent (.planned presp.plan)
    (pushMsg { role := .assistant, content := presp.raw } st₃)
  if presp.plan.steps.isEmpty then
    .done (pushEvent (.completed presp.plan.reasoning) st₄)
  else
    .next (iterExecutePhase env presp st₄)

/-- Continuation once the top-of-iteration snapshot was acquired:
compose the first-iteration user message, then obtain a plan (a thrown
`getPlanFromLLM` error is terminal). -/
def iterComposePhase (env : PlannerEnv) (task : String) (iteration : Nat)
    (snap : PageSnapshot) (st₁ : PlannerState) : IterResult :=
  let st₂ :=
    if iteration = 0 then
      pushMsg { role := .user,
                content := buildUserMessage task (formatSnapshot snap) } st₁
    else st₁
  let pr := env.plan st₂.planCalls
  let st₃ := { st₂ with planCalls := st₂.planCalls + 1 }
  match pr with
  | .error e =>
    .done (pushEvent (.errored ("Failed to get plan: " ++ e)) st₃)
  | .ok presp => iterPlanPhase env presp st₃

/-- One iteration of `runPlanner`: acquire state (terminal error after
the failed retry), then the compose/plan/execute phases above. -/
def iteratePlanner (env : PlannerEnv) (task : String) (iteration : Nat)
    (st : PlannerState) : IterResult :=
  match acquireTopSnapshot env st with
  | (.error e, st₁) => .done (pushEvent (.errored (cannotReadMsg e)) st₁)
  | (.ok snap, st₁) => iterComposePhase env task iteration snap st₁

/-- The iteration bound (`MAX_ITERATIONS`). -/
def MAX_ITERATIONS : Nat := 15

/-- The bounded iteration loop of `runPlanner`; exhausting the bound
emits the distinct max-iterations terminal error. -/
def runPlannerAux (env : PlannerEnv) (task : String) :
    Nat → Nat → PlannerState → PlannerState
  | 0, _, st =>
    pushEvent (.errored "Max iterations (15) reached. Task may be incomplete.")
      st
  | fuel + 1, iteration, st =>
    match iteratePlanner env task iteration st with
    | .done stF => stF
    | .next stN => runPlannerAux env task fuel (iteration + 1) stN

/-- The run state at task start: the conversation holds only the system
prompt. -/
def initialPlannerState : PlannerState :=
  { snapCalls := 0, planCalls := 0, execCalls := 0,
    history := [{ role := .system, content := SYSTEM_PROMPT }], events := [] }

/-- Embeds `runPlanner` as a pure function of the oracle environment. -/
def runPlanner (env : PlannerEnv) (task : String) : PlannerState :=
  runPlannerAux env task MAX_ITERATIONS 0 initialPlannerState

/-- Recognizer for completion events. -/
def isCompleted : PlannerEvent → Bool
  | .completed _ => true
  | _ => false

/-- Number of completion-observer invocations in a trace. -/
def countCompleted (evs : List PlannerEvent) : Nat :=
  (evs.filter isCompleted).length

/-! #### Concrete sample environments for witnesses and counterexamples -/

/-- A sample snapshot. -/
def sampleSnap : PageSnapshot :=
  { url := "u", title := "t", tree := "tree", interactiveCount := 1,
    timestamp := 0 }

/-- A non-risky sample step (`wait`, no verification). -/
def sampleWaitStep : PlannedStep :=
  { action := .wait 5, expectation := none, needsVerification := false }

/-- Environment whose model immediately returns an empty-steps plan. -/
def emptyPlanEnv : PlannerEnv :=
  { snap := fun _ => .ok sampleSnap,
    plan := fun _ => .ok { plan := { steps := [], reasoning := "done" },
                           raw := "raw" },
    exec := fun _ => { success := true, error := none } }

/-- Environment whose snapshots succeed twice (iteration 0 and its final
verification) and then fail: the loop-top acquisition of iteration 1 fails
both attempts mid-run. -/
def midRunFailEnv : PlannerEnv :=
  { snap := fun i => if i ≤ 1 then .ok sampleSnap else .error "boom",
    plan := fun i =>
      if i = 0 then
        .ok { plan := { steps := [sampleWaitStep], reasoning := "r" },
              raw := "raw" }
      else .error "no plan",
    exec := fun _ => { success := true, error := none } }

/-- Environment whose first action execution fails. -/
def failStepEnv : PlannerEnv :=
  { snap := fun _ => .ok sampleSnap,
    plan := fun i =>
      if i = 0 then
        .ok { plan := { steps := [sampleWaitStep, sampleWaitStep],
                        reasoning := "r" },
              raw := "raw" }
      else .error "no plan",
    exec := fun i =>
      if i = 0 then { success := false, error := some "nope" }
      else { success := true, error := none } }

/-- A click step whose model-provided verification flag is `false`. -/
def sampleClickStep : PlannedStep :=
  { action := .click "e7", expectation := none, needsVerification := false }

/-- Environment whose plan holds an under-flagged click followed by a
second step, with all executions succeeding. -/
def clickBatchEnv : PlannerEnv :=
  { snap := fun _ => .ok sampleSnap,
    plan := fun i =>
      if i = 0 then
        .ok { plan := { steps := [sampleClickStep, sampleWaitStep],
                        reasoning := "r" },
              raw := "raw" }
      else .error "no plan",
    exec := fun _ => { success := true, error := none } }

/-- Environment whose snapshots always fail. -/
def allSnapFailEnv : PlannerEnv :=
  { snap := fun _ => .error "down",
    plan := fun _ => .error "no plan",
    exec := fun _ => { success := false, error := none } }

end WebProwler

namespace WebProwler

/-! ### Theorems -/

/-! #### Decimal ref strings are injective in the counter value -/

theorem decodeDigit_digitChar : ∀ d : Nat, d < 10 →
    decodeDigit (Nat.digitChar d) = d := by
  decide

theorem toDigitsCore_append_nil : ∀ fuel n ds, n < fuel →
    Nat.toDigitsCore 10 fuel n ds = Nat.toDigitsCore 10 fuel n [] ++ ds := by
  intro fuel
  induction fuel with
  | zero => intro n ds h; omega
  | succ f ih =>
    intro n ds _
    simp only [Nat.toDigitsCore]
    by_cases h0 : n / 10 = 0
    · simp [h0]
    · have hn : 0 < n := by
        by_contra hc
        have : n = 0 := by omega
        simp [this] at h0
      have hlt : n / 10 < f := by
        have := Nat.div_lt_self hn (by norm_num : 1 < 10)
        omega
      simp only [h0, if_false]
      rw [ih (n / 10) (Nat.digitChar (n % 10) :: ds) hlt,
        ih (n / 10) [Nat.digitChar (n % 10)] hlt, List.append_assoc]
      simp

theorem toDigitsCore_fuel_irrelevant : ∀ n f₁ f₂, n < f₁ → n < f₂ →
    Nat.toDigitsCore 10 f₁ n [] = Nat.toDigitsCore 10 f₂ n [] := by
  intro n
  induction n using Nat.strong_induction_on with
  | _ n ih =>
    intro f₁ f₂ h₁ h₂
    obtain ⟨g₁, rfl⟩ : ∃ g, f₁ = g + 1 := ⟨f₁ - 1, by omega⟩
    obtain ⟨g₂, rfl⟩ : ∃ g, f₂ = g + 1 := ⟨f₂ - 1, by omega⟩
    simp only [Nat.toDigitsCore]
    by_cases h0 : n / 10 = 0
    · simp [h0]
    · have hn : 0 < n := by
        by_contra hc
        have : n = 0 := by omega
        simp [this] at h0
      have hsmall : n / 10 < n := Nat.div_lt_self hn (by norm_num : 1 < 10)
      simp only [h0, if_false]
      rw [toDigitsCore_append_nil g₁ (n / 10) _ (by omega),
        toDigitsCore_append_nil g₂ (n / 10) _ (by omega),
        ih (n / 10) hsmall g₁ g₂ (by omega) (by omega)]

theorem valFrom_append (a : Nat) (l₁ l₂ : List Char) :
    valFrom a (l₁ ++ l₂) = valFrom (valFrom a l₁) l₂ := by
  simp [valFrom, List.foldl_append]

theorem valFrom_toDigits : ∀ n : Nat, valFrom 0 (Nat.toDigits 10 n) = n := by
  intro n
  induction n using Nat.strong_induction_on with
  | _ n ih =>
    show valFrom 0 (Nat.toDigitsCore 10 (n + 1) n []) = n
    simp only [Nat.toDigitsCore]
    by_cases h0 : n / 10 = 0
    · have hlt : n < 10 := by omega
      simp [h0, valFrom, Nat.mod_eq_of_lt hlt, decodeDigit_digitChar n hlt]
    · have hn : 0 < n := by
        by_contra hc
        have : n = 0 := by omega
        simp [this] at h0
      have hsmall : n / 10 < n := Nat.div_lt_self hn (by norm_num : 1 < 10)
      simp only [h0, if_false]
      rw [toDigitsCore_append_nil n (n / 10) _ (by omega),
        toDigitsCore_fuel_irrelevant (n / 10) n (n / 10 + 1) (by omega) (by omega),
        valFrom_append]
      have hrec : valFrom 0 (Nat.toDigitsCore 10 (n / 10 + 1) (n / 10) []) = n / 10 :=
        ih (n / 10) hsmall
      rw [hrec]
      have hd : decodeDigit (Nat.digitChar (n % 10)) = n % 10 :=
        decodeDigit_digitChar (n % 10) (Nat.mod_lt _ (by norm_num))
      simp only [valFrom, List.foldl_cons, List.foldl_nil, hd]
      omega

theorem nat_repr_injective : ∀ m n : Nat, Nat.repr m = Nat.repr n → m = n := by
  intro m n h
  have hdata : (Nat.toDigits 10 m) = (Nat.toDigits 10 n) := by
    have := congrArg String.data h
    simpa [Nat.repr, List.asString] using this
  have := congrArg (valFrom 0) hdata
  rwa [valFrom_toDigits, valFrom_toDigits] at this

theorem mkRef_injective : ∀ m n : Nat, mkRef m = mkRef n → m = n := by
  intro m n h
  apply nat_repr_injective
  have hdata := congrArg String.data h
  simp only [mkRef, String.data_append] at hdata
  have hd : (Nat.repr m).data = (Nat.repr n).data :=
    List.append_cancel_left hdata
  exact String.ext hd

/-! #### Ref table lemmas -/

theorem getOrCreateRef_fresh (live : Nat → Bool) (el : Nat) (st : RefState)
    (hfresh : ∀ r, st.elementsByRef r ≠ some el) :
    getOrCreateRef live el st =
      (mkRef (st.refCounter + 1),
        { refCounter := st.refCounter + 1,
          elementsByRef := fun s =>
            if s = mkRef (st.refCounter + 1) then some el else st.elementsByRef s,
          refsByElement := fun e =>
            if e = el then some (mkRef (st.refCounter + 1))
            else st.refsByElement e }) := by
  unfold getOrCreateRef
  cases hre : st.refsByElement el with
  | none => simp [hre]
  | some existing =>
    cases hbr : st.elementsByRef existing with
    | none => simp [hre, hbr]
    | some stored =>
      have hne : stored ≠ el := fun h => hfresh existing (h ▸ hbr)
      by_cases hl : live stored
      · simp [hre, hbr, derefWeak, hl, hne]
      · simp [hre, hbr, derefWeak, hl]

theorem getOrCreateRef_roundtrip (live : Nat → Bool) (el : Nat) (st : RefState)
    (hlive : live el = true) :
    resolveRef live (getOrCreateRef live el st).1 (getOrCreateRef live el st).2 =
      some el := by
  unfold getOrCreateRef
  cases hre : st.refsByElement el with
  | none => simp [hre, resolveRef, derefWeak, hlive]
  | some existing =>
    cases hbr : st.elementsByRef existing with
    | none => simp [hre, hbr, resolveRef, derefWeak, hlive]
    | some stored =>
      by_cases hl : live stored
      · by_cases heq : stored = el
        · subst heq
          simp [hre, hbr, derefWeak, hl, resolveRef]
        · simp [hre, hbr, derefWeak, hl, heq, resolveRef, hlive]
      · simp [hre, hbr, derefWeak, hl, resolveRef, hlive]

theorem getOrCreateRef_idempotent (live : Nat → Bool) (el : Nat) (st : RefState)
    (hlive : live el = true) :
    getOrCreateRef live el (getOrCreateRef live el st).2 =
      getOrCreateRef live el st := by
  unfold getOrCreateRef
  cases hre : st.refsByElement el with
  | none =>
    simp [hre, derefWeak, hlive]
  | some existing =>
    cases hbr : st.elementsByRef existing with
    | none => simp [hre, hbr, derefWeak, hlive]
    | some stored =>
      by_cases hl : live stored
      · by_cases heq : stored = el
        · subst heq
          simp [hre, hbr, derefWeak, hl]
        · simp [hre, hbr, derefWeak, hl, heq, hlive]
      · simp [hre, hbr, derefWeak, hl, hlive]

theorem assignRefs_fresh_spec (live : Nat → Bool) :
    ∀ (es : List Nat) (st : RefState), es.Nodup →
    (∀ e ∈ es, ∀ r, st.elementsByRef r ≠ some e) →
    (assignRefs live es st).1 =
      (List.range es.length).map (fun i => mkRef (st.refCounter + 1 + i)) ∧
    (assignRefs live es st).2.elementsByRef =
      tableAfter es st.refCounter st.elementsByRef ∧
    (assignRefs live es st).2.refCounter = st.refCounter + es.length := by
  intro es
  induction es with
  | nil => intro st _ _; simp [assignRefs, tableAfter]
  | cons el rest ih =>
    intro st hnd hfresh
    have hnd2 := List.nodup_cons.mp hnd
    have hstep := getOrCreateRef_fresh live el st
      (hfresh el (List.mem_cons_self el rest))
    have hfresh2 : ∀ e ∈ rest, ∀ r,
        (getOrCreateRef live el st).2.elementsByRef r ≠ some e := by
      intro e he r
      rw [hstep]
      by_cases hr : r = mkRef (st.refCounter + 1)
      · simp only [hr, if_pos rfl]
        intro hc
        exact hnd2.1 ((Option.some.injEq _ _).mp hc ▸ he)
      · simp only [hr, if_neg hr]
        exact hfresh e (List.mem_cons_of_mem el he) r
    have hrec := ih (getOrCreateRef live el st).2 hnd2.2 hfresh2
    refine ⟨?_, ?_, ?_⟩
    · show (getOrCreateRef live el st).1 ::
        (assignRefs live rest (getOrCreateRef live el st).2).1 = _
      rw [hrec.1, hstep]
      simp only [List.length_cons, List.range_succ_eq_map, List.map_cons,
        List.map_map]
      refine congrArg₂ _ rfl ?_
      apply List.map_congr_left
      intro i _
      simp only [Function.comp_apply]
      exact congrArg mkRef (by omega)
    · show (assignRefs live rest (getOrCreateRef live el st).2).2.elementsByRef = _
      rw [hrec.2.1, hstep]
      simp [tableAfter]
    · show (assignRefs live rest (getOrCreateRef live el st).2).2.refCounter = _
      rw [hrec.2.2, hstep]
      simp only [List.length_cons]
      omega

theorem tableAfter_lookup_low (r : String) :
    ∀ (es : List Nat) (c : Nat) (f : String → Option Nat) (k : Nat), k ≤ c →
    r = mkRef k → tableAfter es c f r = f r := by
  intro es
  induction es with
  | nil => intro c f k _ _; rfl
  | cons el rest ih =>
    intro c f k hk hr
    show tableAfter rest (c + 1) _ r = f r
    rw [ih (c + 1) _ k (by omega) hr]
    have : r ≠ mkRef (c + 1) := by
      rw [hr]
      intro hc
      have := mkRef_injective k (c + 1) hc
      omega
    simp [this]

theorem tableAfter_lookup (k : Nat) :
    ∀ (es : List Nat) (c : Nat) (f : String → Option Nat),
    (∀ j, c < j → f (mkRef j) = none) → c < k →
    tableAfter es c f (mkRef k) =
      if k ≤ c + es.length then es.get? (k - c - 1) else none := by
  intro es
  induction es with
  | nil =>
    intro c f hf hk
    simp only [tableAfter, List.length_nil, Nat.add_zero]
    rw [if_neg (by omega)]
    exact hf k hk
  | cons el rest ih =>
    intro c f hf hk
    show tableAfter rest (c + 1) _ (mkRef k) = _
    by_cases hke : k = c + 1
    · subst hke
      rw [tableAfter_lookup_low (mkRef (c + 1)) rest (c + 1) _ (c + 1) le_rfl rfl]
      rw [if_pos (by simp [List.length_cons])]
      simp
    · have hk2 : c + 1 < k := by omega
      have hf2 : ∀ j, c + 1 < j →
          (fun s => if s = mkRef (c + 1) then some el else f s) (mkRef j) = none := by
        intro j hj
        have : mkRef j ≠ mkRef (c + 1) := by
          intro hc
          have := mkRef_injective j (c + 1) hc
          omega
        simp only [this, if_neg this]
        exact hf j (by omega)
      rw [ih (c + 1) _ hf2 hk2]
      have harith : k - c - 1 = (k - (c + 1) - 1) + 1 := by omega
      by_cases hub : k ≤ c + 1 + rest.length
      · rw [if_pos hub, if_pos (by simpa [List.length_cons] using by omega), harith]
        simp [List.get?_cons_succ]
      · rw [if_neg hub, if_neg (by simp [List.length_cons]; omega)]

/-! #### Claims C10 and C1 -/

/-- C10: within a single snapshot build, ref assignment is idempotent
and injective — calling `getOrCreateRef` twice on the same element
returns the same ref string and leaves the table unchanged, distinct
elements receive distinct ref strings, and `resolveRef` applied to a
ref returned for a live element yields that same element. -/
theorem ref_assignment_idempotent_injective (live : Nat → Bool) (el : Nat)
    (st : RefState) (es : List Nat) (hlive : live el = true)
    (hnd : es.Nodup) :
    getOrCreateRef live el (getOrCreateRef live el st).2 =
      getOrCreateRef live el st ∧
    resolveRef live (getOrCreateRef live el st).1 (getOrCreateRef live el st).2 =
      some el ∧
    (assignRefs live es (resetRefs st)).1 =
      (List.range es.length).map (fun i => mkRef (1 + i)) ∧
    ((assignRefs live es (resetRefs st)).1).Nodup := by
  have hfresh : ∀ e ∈ es, ∀ r, (resetRefs st).elementsByRef r ≠ some e := by
    intro e _ r
    simp [resetRefs]
  have hspec := assignRefs_fresh_spec live es (resetRefs st) hnd hfresh
  have hrefs : (assignRefs live es (resetRefs st)).1 =
      (List.range es.length).map (fun i => mkRef (1 + i)) := by
    rw [hspec.1]
    apply List.map_congr_left
    intro i _
    exact congrArg mkRef (by simp [resetRefs])
  refine ⟨getOrCreateRef_idempotent live el st hlive,
    getOrCreateRef_roundtrip live el st hlive, hrefs, ?_⟩
  rw [hrefs]
  refine List.Nodup.map ?_ (List.nodup_range _)
  intro i j hij
  have := mkRef_injective (1 + i) (1 + j) hij
  omega

/-- C10 witness at a concrete input. -/
theorem ref_assignment_idempotent_injective_witness :
    ((fun _ => true) : Nat → Bool) 3 = true ∧ ([5, 7] : List Nat).Nodup ∧
    (getOrCreateRef (fun _ => true) 3
        (getOrCreateRef (fun _ => true) 3 initialRefState).2 =
      getOrCreateRef (fun _ => true) 3 initialRefState ∧
    resolveRef (fun _ => true) (getOrCreateRef (fun _ => true) 3 initialRefState).1
        (getOrCreateRef (fun _ => true) 3 initialRefState).2 = some 3 ∧
    (assignRefs (fun _ => true) [5, 7] (resetRefs initialRefState)).1 =
      (List.range 2).map (fun i => mkRef (1 + i)) ∧
    ((assignRefs (fun _ => true) [5, 7] (resetRefs initialRefState)).1).Nodup) :=
  ⟨rfl, by decide,
    ref_assignment_idempotent_injective (fun _ => true) 3 initialRefState
      [5, 7] rfl (by decide)⟩

/-- C1 counterexample: element `0` gets ref `"e1"` in snapshot N; after
snapshot N+1 is taken over the same untouched, still-live element, the
old ref `"e1"` still resolves — to that element — because the counter
restarts and the same ref string is reissued.  The claim demands that it
fail to resolve. -/
theorem ref_invalidation_counterexample :
    (getOrCreateRef (fun _ => true) 0 initialRefState).1 = "e1" ∧
    resolveRef (fun _ => true) "e1"
      ((getOrCreateRef (fun _ => true) 0
        (resetRefs (getOrCreateRef (fun _ => true) 0 initialRefState).2)).2) =
      some 0 := by
  constructor
  · rfl
  · rfl

/-- C1 (amended): taking snapshot N+1 does clear the table — immediately
after the reset every ref resolves to null — but the counter restarts as
well, so the re-scan reissues the same ref strings: afterwards a
snapshot-N ref `"ek"` resolves to the element that received `"ek"` in
snapshot N+1 (the k-th ref-bearing element of the new scan, and null
exactly when snapshot N+1 assigned fewer than k refs).  A snapshot-N ref
whose element is untouched is therefore not reliably invalidated. -/
theorem ref_invalidation_amended (live : Nat → Bool) (st : RefState)
    (es : List Nat) (k : Nat) (hnd : es.Nodup)
    (hall : ∀ e ∈ es, live e = true) (hk : 1 ≤ k) :
    (∀ r, resolveRef live r (resetRefs st) = none) ∧
    resolveRef live (mkRef k) (assignRefs live es (resetRefs st)).2 =
      es.get? (k - 1) := by
  have hfresh : ∀ e ∈ es, ∀ r, (resetRefs st).elementsByRef r ≠ some e := by
    intro e _ r
    simp [resetRefs]
  have hspec := assignRefs_fresh_spec live es (resetRefs st) hnd hfresh
  refine ⟨fun r => by simp [resolveRef, resetRefs], ?_⟩
  have hc0 : (resetRefs st).refCounter = 0 := rfl
  have hlook := tableAfter_lookup k es 0 (fun _ => none)
    (fun _ _ => rfl) (by omega)
  rw [resolveRef, hspec.2.1, hc0]
  show ((tableAfter es 0 (resetRefs st).elementsByRef) (mkRef k)).bind
    (derefWeak live) = es.get? (k - 1)
  have hfn : (resetRefs st).elementsByRef = fun _ => none := rfl
  rw [hfn, hlook]
  simp only [Nat.sub_zero, Nat.zero_add]
  by_cases hub : k ≤ es.length
  · rw [if_pos hub]
    cases hget : es.get? (k - 1) with
    | none =>
      have := List.get?_eq_none.mp hget
      omega
    | some e =>
      have hmem : e ∈ es := List.get?_mem hget
      simp [derefWeak, hall e hmem]
  · rw [if_neg hub]
    have : es.get? (k - 1) = none := List.get?_eq_none.mpr (by omega)
    rw [this]
    rfl

/-! #### Serialization lemmas (claim C2) -/

theorem linesWeight_append (a b : List String) :
    linesWeight (a ++ b) = linesWeight a + linesWeight b := by
  induction a with
  | nil => simp [linesWeight]
  | cons x t ih =>
    simp only [linesWeight, List.foldr_cons, List.cons_append] at *
    omega

theorem serializeNode_saturated (n : PageNode) (indent maxChars : Nat)
    (st : List String × Nat) (h : maxChars ≤ st.2) :
    serializeNode n indent maxChars st = st := by
  cases n with
  | mk ref role name tag props inter depth children =>
    rw [serializeNode]
    simp [h]

mutual

theorem serializeNode_count_le (n : PageNode) (indent maxChars : Nat)
    (st : List String × Nat) :
    (serializeNode n indent maxChars st).2 ≤
      max st.2 (maxChars + maxLine n indent) := by
  cases n with
  | mk ref role name tag props inter depth children =>
    rw [serializeNode]
    by_cases h : st.2 ≥ maxChars
    · simp [h]
    · simp only [h, if_false]
      refine le_trans
        (serializeChildren_count_le children (indent + 1) maxChars _) ?_
      have hlt : st.2 < maxChars := lt_of_not_ge h
      have hL : (lineOf (.mk ref role name tag props inter depth children)
          indent).length ≤
          maxLine (.mk ref role name tag props inter depth children) indent := by
        rw [maxLine]
        exact le_max_left _ _
      have hLL : maxLineList children (indent + 1) ≤
          maxLine (.mk ref role name tag props inter depth children) indent := by
        rw [maxLine]
        exact le_max_right _ _
      apply max_le
      · refine le_trans ?_ (le_max_right st.2 _)
        show st.2 + (lineOf (.mk ref role name tag props inter depth children)
          indent).length + 1 ≤ _
        omega
      · apply le_trans (Nat.add_le_add_left hLL maxChars)
        exact le_max_right _ _
termination_by sizeOf n

theorem serializeChildren_count_le (ns : List PageNode) (indent maxChars : Nat)
    (st : List String × Nat) :
    (serializeChildren ns indent maxChars st).2 ≤
      max st.2 (maxChars + maxLineList ns indent) := by
  cases ns with
  | nil => simp [serializeChildren]
  | cons c rest =>
    rw [serializeChildren]
    refine le_trans (serializeChildren_count_le rest indent maxChars _) ?_
    apply max_le
    · refine le_trans (serializeNode_count_le c indent maxChars st) ?_
      apply max_le
      · exact le_max_left _ _
      · refine le_trans (Nat.add_le_add_left ?_ maxChars) (le_max_right _ _)
        rw [maxLineList]
        exact le_max_left _ _
    · refine le_trans (Nat.add_le_add_left ?_ maxChars) (le_max_right _ _)
      rw [maxLineList]
      exact le_max_right _ _
termination_by sizeOf ns

end

mutual

theorem serializeNode_lines_weight (n : PageNode) (indent maxChars : Nat)
    (st : List String × Nat) :
    ∃ new, (serializeNode n indent maxChars st).1 = st.1 ++ new ∧
      (serializeNode n indent maxChars st).2 = st.2 + linesWeight new := by
  cases n with
  | mk ref role name tag props inter depth children =>
    rw [serializeNode]
    by_cases h : st.2 ≥ maxChars
    · exact ⟨[], by simp [h, linesWeight]⟩
    · simp only [h, if_false]
      obtain ⟨new, h1, h2⟩ := serializeChildren_lines_weight children
        (indent + 1) maxChars
        (st.1 ++ [lineOf (.mk ref role name tag props inter depth children) indent],
          st.2 + (lineOf (.mk ref role name tag props inter depth children)
            indent).length + 1)
      refine ⟨lineOf (.mk ref role name tag props inter depth children) indent
        :: new, ?_, ?_⟩
      · rw [h1]
        simp
      · rw [h2]
        simp [linesWeight]
        omega
termination_by sizeOf n

theorem serializeChildren_lines_weight (ns : List PageNode)
    (indent maxChars : Nat) (st : List String × Nat) :
    ∃ new, (serializeChildren ns indent maxChars st).1 = st.1 ++ new ∧
      (serializeChildren ns indent maxChars st).2 = st.2 + linesWeight new := by
  cases ns with
  | nil => exact ⟨[], by simp [serializeChildren, linesWeight]⟩
  | cons c rest =>
    rw [serializeChildren]
    obtain ⟨n1, h1, h2⟩ := serializeNode_lines_weight c indent maxChars st
    obtain ⟨n2, h3, h4⟩ := serializeChildren_lines_weight rest indent maxChars
      (serializeNode c indent maxChars st)
    refine ⟨n1 ++ n2, ?_, ?_⟩
    · rw [h3, h1, List.append_assoc]
    · rw [h4, h2, linesWeight_append]
      omega
termination_by sizeOf ns

end

theorem intercalate_go_length (s : String) :
    ∀ (as : List String) (acc : String),
    (String.intercalate.go acc s as).length =
      acc.length + as.foldr (fun a t => s.length + a.length + t) 0 := by
  intro as
  induction as with
  | nil => intro acc; simp [String.intercalate.go]
  | cons a rest ih =>
    intro acc
    rw [String.intercalate.go, ih (acc ++ s ++ a)]
    simp [String.length_append]
    omega

theorem intercalate_newline_length_le (ls : List String) :
    (String.intercalate "\n" ls).length ≤ linesWeight ls := by
  cases ls with
  | nil => simp [String.intercalate, linesWeight]
  | cons a rest =>
    rw [String.intercalate, intercalate_go_length]
    have hsep : ("\n" : String).length = 1 := rfl
    rw [hsep]
    simp only [linesWeight, List.foldr_cons]
    have : rest.foldr (fun x t => 1 + x.length + t) 0 ≤
        rest.foldr (fun l a => l.length + 1 + a) 0 := by
      induction rest with
      | nil => simp
      | cons b t ihb => simp [List.foldr_cons]; omega
    omega

/-- C2 counterexample: with `maxChars = 1` a single `button` node
serializes to the 6-character tree `"button"` — the check happens before
a line is appended, so the final line overflows the budget and the tree
text exceeds `maxChars`. -/
theorem tree_budget_counterexample :
    serializeTree (PageNode.mk "" "button" "" "button" [] true 0 []) 1 =
      "button" ∧
    1 < (serializeTree (PageNode.mk "" "button" "" "button" [] true 0 []) 1).length := by
  exact ⟨rfl, by decide⟩

/-- C2 (amended): serialization appends no further lines once the
accumulated character count has reached `maxChars`, but the line that
crosses the budget is still emitted in full: the serialized tree text is
bounded by `maxChars` plus the longest single line of the subtree, not
by `maxChars` itself. -/
theorem tree_budget_amended (n : PageNode) (indent maxChars : Nat)
    (st : List String × Nat) (h : maxChars ≤ st.2) :
    serializeNode n indent maxChars st = st ∧
    (serializeTree n maxChars).length ≤ maxChars + maxLine n 0 := by
  refine ⟨serializeNode_saturated n indent maxChars st h, ?_⟩
  obtain ⟨new, h1, h2⟩ := serializeNode_lines_weight n 0 maxChars ([], 0)
  have hcount := serializeNode_count_le n 0 maxChars ([], 0)
  rw [h2] at hcount
  simp only [Nat.zero_add, Nat.zero_le, max_eq_right] at hcount
  have hlines : (serializeNode n 0 maxChars ([], 0)).1 = new := by
    rw [h1]
    simp
  calc (serializeTree n maxChars).length
      ≤ linesWeight (serializeNode n 0 maxChars ([], 0)).1 :=
        intercalate_newline_length_le _
    _ = linesWeight new := by rw [hlines]
    _ ≤ maxChars + maxLine n 0 := hcount

/-- C2 amended-claim witness at a concrete input. -/
theorem tree_budget_amended_witness :
    (1 : Nat) ≤ 5 ∧
    (serializeNode (PageNode.mk "" "button" "" "button" [] true 0 []) 0 1
        (["x"], 5) = (["x"], 5) ∧
    (serializeTree (PageNode.mk "" "button" "" "button" [] true 0 []) 1).length ≤
      1 + maxLine (PageNode.mk "" "button" "" "button" [] true 0 []) 0) :=
  ⟨by decide,
    tree_budget_amended (PageNode.mk "" "button" "" "button" [] true 0 [])
      0 1 (["x"], 5) (by decide)⟩

/-! #### Recorder lemmas (claim C7) -/

theorem replaySteps_all_success (exec : Nat → StepResult)
    (hall : ∀ k, (exec k).success = true) :
    ∀ (l : List RecordedStep) (i : Nat),
    replaySteps exec l i = (l.map (fun s => s.action), none) := by
  intro l
  induction l with
  | nil => intro i; rfl
  | cons s rest ih =>
    intro i
    rw [replaySteps]
    simp only [hall i, if_true, ih (i + 1), List.map_cons]

theorem replaySteps_halt (exec : Nat → StepResult) (j : Nat)
    (hpre : ∀ k, k < j → (exec k).success = true)
    (hfail : (exec j).success = false) :
    ∀ (l : List RecordedStep) (i : Nat), i ≤ j → j - i < l.length →
    replaySteps exec l i =
      ((l.take (j - i + 1)).map (fun s => s.action), some j) := by
  intro l
  induction l with
  | nil => intro i _ hlen; simp at hlen
  | cons s rest ih =>
    intro i hij hlen
    rw [replaySteps]
    by_cases hieq : i = j
    · subst hieq
      simp only [hfail, Bool.false_eq_true, if_false, Nat.sub_self,
        Nat.zero_add, List.take_succ_cons, List.take_zero, List.map_cons,
        List.map_nil]
    · have hlt : i < j := lt_of_le_of_ne hij hieq
      simp only [hpre i hlt, if_true]
      have harith : j - i + 1 = (j - (i + 1) + 1) + 1 := by omega
      rw [ih (i + 1) (by omega) (by simp at hlen; omega), harith]
      simp [List.take_succ_cons]

/-- C7: a run whose recording contains no successful step persists
nothing at task end; a run with at least one successful step persists
its finalized recording; replaying a stored recording executes exactly
its previously-successful steps in their original order, and a replay
failure halts execution at the failing step, reporting its index. -/
theorem recording_gate_and_replay (recdA recdB recdC : Recording) (now : Nat)
    (execAll execFail : Nat → StepResult) (j : Nat)
    (hA : ∀ s ∈ recdA.steps, s.success = false)
    (hB : ∃ s ∈ recdB.steps, s.success = true)
    (hall : ∀ i, (execAll i).success = true)
    (hpre : ∀ i, i < j → (execFail i).success = true)
    (hfail : (execFail j).success = false)
    (hj : j < (recdC.steps.filter (fun s => s.success)).length) :
    (stopRecording (some recdA) now).persisted = none ∧
    (stopRecording (some recdB) now).persisted =
      some { recdB with duration := now - recdB.createdAt } ∧
    replayRecording recdC execAll =
      ((recdC.steps.filter (fun s => s.success)).map (fun s => s.action),
        none) ∧
    replayRecording recdC execFail =
      (((recdC.steps.filter (fun s => s.success)).take (j + 1)).map
        (fun s => s.action), some j) := by
  refine ⟨?_, ?_, ?_, ?_⟩
  · have hany : recdA.steps.any (fun s => s.success) = false := by
      simp only [List.any_eq_false]
      intro s hs
      simp [hA s hs]
    simp [stopRecording, hany]
  · have hany : recdB.steps.any (fun s => s.success) = true := by
      simp only [List.any_eq_true]
      obtain ⟨s, hs, hsucc⟩ := hB
      exact ⟨s, hs, by simp [hsucc]⟩
    simp [stopRecording, hany]
  · exact replaySteps_all_success execAll hall _ 0
  · have := replaySteps_halt execFail j hpre hfail
      (recdC.steps.filter (fun s => s.success)) 0 (Nat.zero_le j)
      (by simpa using hj)
    simpa [replayRecording] using this

/-- C7 witness at concrete inputs: a failed-only run persists nothing, a
mixed run persists, full replay runs both successful steps, and a replay
failing at index 1 stops there. -/
theorem recording_gate_and_replay_witness :
    (∀ s ∈ (Recording.mk "r1" "t" "u" [RecordedStep.mk (Action.click "e1")
      "u" 0 false (some "x")] 0 0).steps, s.success = false) ∧
    (∃ s ∈ (Recording.mk "r2" "t" "u"
      [RecordedStep.mk (Action.click "e1") "u" 0 true none,
       RecordedStep.mk (Action.click "e2") "u" 1 false (some "x"),
       RecordedStep.mk (Action.click "e3") "u" 2 true none] 0 0).steps,
      s.success = true) ∧
    (stopRecording (some (Recording.mk "r1" "t" "u"
      [RecordedStep.mk (Action.click "e1") "u" 0 false (some "x")] 0 0))
      7).persisted = none ∧
    (stopRecording (some (Recording.mk "r2" "t" "u"
      [RecordedStep.mk (Action.click "e1") "u" 0 true none,
       RecordedStep.mk (Action.click "e2") "u" 1 false (some "x"),
       RecordedStep.mk (Action.click "e3") "u" 2 true none] 0 0))
      7).persisted = some (Recording.mk "r2" "t" "u"
      [RecordedStep.mk (Action.click "e1") "u" 0 true none,
       RecordedStep.mk (Action.click "e2") "u" 1 false (some "x"),
       RecordedStep.mk (Action.click "e3") "u" 2 true none] 0 7) ∧
    replayRecording (Recording.mk "r2" "t" "u"
      [RecordedStep.mk (Action.click "e1") "u" 0 true none,
       RecordedStep.mk (Action.click "e2") "u" 1 false (some "x"),
       RecordedStep.mk (Action.click "e3") "u" 2 true none] 0 0)
      (fun _ => StepResult.mk true none) =
      ([Action.click "e1", Action.click "e3"], none) ∧
    replayRecording (Recording.mk "r2" "t" "u"
      [RecordedStep.mk (Action.click "e1") "u" 0 true none,
       RecordedStep.mk (Action.click "e2") "u" 1 false (some "x"),
       RecordedStep.mk (Action.click "e3") "u" 2 true none] 0 0)
      (fun i => if i = 0 then StepResult.mk true none
        else StepResult.mk false (some "boom")) =
      ([Action.click "e1", Action.click "e3"], some 1) := by
  have h := recording_gate_and_replay
    (Recording.mk "r1" "t" "u" [RecordedStep.mk (Action.click "e1")
      "u" 0 false (some "x")] 0 0)
    (Recording.mk "r2" "t" "u"
      [RecordedStep.mk (Action.click "e1") "u" 0 true none,
       RecordedStep.mk (Action.click "e2") "u" 1 false (some "x"),
       RecordedStep.mk (Action.click "e3") "u" 2 true none] 0 0)
    (Recording.mk "r2" "t" "u"
      [RecordedStep.mk (Action.click "e1") "u" 0 true none,
       RecordedStep.mk (Action.click "e2") "u" 1 false (some "x"),
       RecordedStep.mk (Action.click "e3") "u" 2 true none] 0 0)
    7 (fun _ => StepResult.mk true none)
    (fun i => if i = 0 then StepResult.mk true none
      else StepResult.mk false (some "boom")) 1
    (by decide) (by refine ⟨_, List.mem_cons_self _ _, rfl⟩)
    (fun _ => rfl)
    (by intro i hi; interval_cases i; rfl)
    (by rfl) (by decide)
  refine ⟨by decide, by refine ⟨_, List.mem_cons_self _ _, rfl⟩,
    h.1, ?_, ?_, ?_⟩
  · have h2 := h.2.1
    exact h2
  · have h3 := h.2.2.1
    simpa using h3
  · have h4 := h.2.2.2
    simpa using h4

/-! #### Conversation trimming lemmas (claim C6) -/

theorem trimConversation_eq (g : List LLMMessage) (h14 : 14 < g.length) :
    trimConversation g 14 = g.take 2 ++ g.drop (g.length - 12) := by
  rw [trimConversation, if_neg (by omega)]
  rw [if_neg (by omega)]

theorem trimConversation_length (g : List LLMMessage) :
    (trimConversation g 14).length = min g.length 14 := by
  by_cases h14 : g.length ≤ 14
  · rw [trimConversation, if_pos h14]
    omega
  · rw [trimConversation_eq g (by omega)]
    simp only [List.length_append, List.length_take, List.length_drop]
    omega

theorem trimConversation_get?_low (g : List LLMMessage) (i : Nat)
    (hi : i < 2) (hlen : 2 ≤ g.length) :
    (trimConversation g 14).get? i = g.get? i := by
  by_cases h14 : g.length ≤ 14
  · rw [trimConversation, if_pos h14]
  · rw [trimConversation_eq g (by omega)]
    rw [List.get?_append (by simp [List.length_take]; omega)]
    exact List.get?_take hi

theorem applyOps_get?_low (ops : List ConvOp) :
    ∀ (h : List LLMMessage), 2 ≤ h.length → ∀ i, i < 2 →
    (applyOps h ops).get? i = h.get? i := by
  induction ops with
  | nil => intro h _ i _; rfl
  | cons op rest ih =>
    intro h hlen i hi
    rw [applyOps]
    cases op with
    | push m =>
      simp only [applyOp]
      rw [ih (h ++ [m]) (by simp; omega) i hi]
      show (h ++ [m]).get? i = h.get? i
      exact List.get?_append (by omega)
    | trim =>
      simp only [applyOp]
      rw [ih (trimConversation h 14) (by rw [trimConversation_length]; omega)
        i hi]
      exact trimConversation_get?_low h i hi hlen

/-- C6: over any run, the system prompt at index 0 and the original task
message at index 1 (once both are present) are unchanged by any sequence
of appends and trims, and trimming removes only messages at indices 2 and
above, keeping the most recent window (the last 12 messages) intact. -/
theorem conversation_pinning (h : List LLMMessage) (ops : List ConvOp)
    (hlen : 2 ≤ h.length) :
    (applyOps h ops).get? 0 = h.get? 0 ∧
    (applyOps h ops).get? 1 = h.get? 1 ∧
    (∀ g : List LLMMessage, 14 < g.length →
      trimConversation g 14 = g.take 2 ++ g.drop (g.length - 12)) := by
  exact ⟨applyOps_get?_low ops h hlen 0 (by omega),
    applyOps_get?_low ops h hlen 1 (by omega),
    fun g hg => trimConversation_eq g hg⟩

/-- C6 witness: a 15-message history trimmed twice and pushed once keeps
its first two messages byte-identical. -/
theorem conversation_pinning_witness :
    2 ≤ (LLMMessage.mk Role.system "sys" ::
      LLMMessage.mk Role.user "task" ::
      (List.range 13).map (fun i => LLMMessage.mk Role.user (Nat.repr i))).length ∧
    ((applyOps (LLMMessage.mk Role.system "sys" ::
      LLMMessage.mk Role.user "task" ::
      (List.range 13).map (fun i => LLMMessage.mk Role.user (Nat.repr i)))
      [ConvOp.trim, ConvOp.push (LLMMessage.mk Role.assistant "a"),
        ConvOp.trim]).get? 0 =
      some (LLMMessage.mk Role.system "sys") ∧
    (applyOps (LLMMessage.mk Role.system "sys" ::
      LLMMessage.mk Role.user "task" ::
      (List.range 13).map (fun i => LLMMessage.mk Role.user (Nat.repr i)))
      [ConvOp.trim, ConvOp.push (LLMMessage.mk Role.assistant "a"),
        ConvOp.trim]).get? 1 =
      some (LLMMessage.mk Role.user "task")) := by
  constructor
  · simp
  · have h := conversation_pinning (LLMMessage.mk Role.system "sys" ::
      LLMMessage.mk Role.user "task" ::
      (List.range 13).map (fun i => LLMMessage.mk Role.user (Nat.repr i)))
      [ConvOp.trim, ConvOp.push (LLMMessage.mk Role.assistant "a"),
        ConvOp.trim] (by simp)
    exact ⟨h.1, h.2.1⟩

/-! #### Planner state bookkeeping lemmas -/

theorem pushEvent_fields (e : PlannerEvent) (st : PlannerState) :
    (pushEvent e st).planCalls = st.planCalls ∧
    (pushEvent e st).execCalls = st.execCalls ∧
    (pushEvent e st).snapCalls = st.snapCalls ∧
    (pushEvent e st).history = st.history ∧
    (pushEvent e st).events = st.events ++ [e] :=
  ⟨rfl, rfl, rfl, rfl, rfl⟩

theorem pushMsg_fields (m : LLMMessage) (st : PlannerState) :
    (pushMsg m st).planCalls = st.planCalls ∧
    (pushMsg m st).execCalls = st.execCalls ∧
    (pushMsg m st).snapCalls = st.snapCalls ∧
    (pushMsg m st).history = st.history ++ [m] ∧
    (pushMsg m st).events = st.events :=
  ⟨rfl, rfl, rfl, rfl, rfl⟩

theorem acquireTopSnapshot_state (env : PlannerEnv) (st : PlannerState) :
    ∃ k, 1 ≤ k ∧ k ≤ 2 ∧
    (acquireTopSnapshot env st).2 = { st with snapCalls := st.snapCalls + k } := by
  rw [acquireTopSnapshot]
  cases h : env.snap st.snapCalls with
  | ok s => exact ⟨1, by omega, by omega, by simp [getSnapshotOnce, h]⟩
  | error e =>
    refine ⟨2, by omega, by omega, ?_⟩
    simp only [getSnapshotOnce, h]

theorem acquireErrorSnapshot_state (env : PlannerEnv) (st : PlannerState) :
    (acquireErrorSnapshot env st).2 =
      { st with snapCalls := st.snapCalls + 1 } := by
  rw [acquireErrorSnapshot]
  cases h : env.snap st.snapCalls <;> simp [getSnapshotOnce, h]

theorem acquireVerifySnapshot_state (env : PlannerEnv) (st : PlannerState) :
    ∃ k, 1 ≤ k ∧ k ≤ 2 ∧
    (acquireVerifySnapshot env st).2 =
      { st with snapCalls := st.snapCalls + k } := by
  rw [acquireVerifySnapshot]
  cases h : env.snap st.snapCalls with
  | ok s => exact ⟨1, by omega, by omega, by simp [getSnapshotOnce, h]⟩
  | error e =>
    refine ⟨2, by omega, by omega, ?_⟩
    simp only [getSnapshotOnce, h]
    cases h2 : env.snap (st.snapCalls + 1) <;> rfl

/-! #### Step-execution lemmas (claims C3, C4) -/

theorem countCompleted_append (a b : List PlannerEvent) :
    countCompleted (a ++ b) = countCompleted a + countCompleted b := by
  simp [countCompleted, List.filter_append]

theorem execSteps_skip_pre (env : PlannerEnv) :
    ∀ (pre rest : List PlannedStep) (i : Nat) (st : PlannerState),
    (∀ j (hj : j < pre.length),
      (env.exec (st.execCalls + j)).success = true ∧
      shouldVerifyStep (pre.get ⟨j, hj⟩) = false) →
    ∃ evs : List PlannerEvent, countCompleted evs = 0 ∧
      execSteps env (pre ++ rest) i st =
        execSteps env rest (i + pre.length)
          { st with execCalls := st.execCalls + pre.length,
                    events := st.events ++ evs } := by
  intro pre
  induction pre with
  | nil =>
    intro rest i st _
    refine ⟨[], rfl, ?_⟩
    simp
  | cons s pre' ih =>
    intro rest i st hpre
    have h0 := hpre 0 (by simp)
    have hsucc : (env.exec st.execCalls).success = true := by
      have := h0.1
      simpa using this
    have hsv : shouldVerifyStep s = false := by
      have := h0.2
      simpa using this
    rw [List.cons_append, execSteps]
    simp only [pushEvent, pushMsg, hsucc, Bool.true_eq_false, if_false, hsv,
      Bool.false_and, Bool.false_eq_true]
    have hpre2 : ∀ j (hj : j < pre'.length),
        (env.exec (st.execCalls + 1 + j)).success = true ∧
        shouldVerifyStep (pre'.get ⟨j, hj⟩) = false := by
      intro j hj
      have := hpre (j + 1) (by simp; omega)
      constructor
      · have h1 := this.1
        have : st.execCalls + 1 + j = st.execCalls + (j + 1) := by omega
        rw [this]
        exact h1
      · have h2 := this.2
        simpa using h2
    obtain ⟨evs, hevs0, hevs⟩ := ih rest (i + 1)
      { st with execCalls := st.execCalls + 1,
                events := st.events ++ [PlannerEvent.stepStart i] ++
                  [PlannerEvent.stepComplete true] } hpre2
    refine ⟨[PlannerEvent.stepStart i, PlannerEvent.stepComplete true] ++ evs,
      ?_, ?_⟩
    · rw [countCompleted_append, hevs0]
      rfl
    rw [hevs]
    have harith : i + 1 + pre'.length = i + (pre'.length + 1) := by omega
    have harith2 : st.execCalls + 1 + pre'.length =
      st.execCalls + (pre'.length + 1) := by omega
    simp only [List.length_cons, harith, harith2, List.append_assoc,
      List.singleton_append, List.cons_append, List.nil_append]
theorem execSteps_fail_head (env : PlannerEnv) (step : PlannedStep)
    (rest : List PlannedStep) (i : Nat) (st : PlannerState)
    (hfail : (env.exec st.execCalls).success = false) :
    ∃ body, execSteps env (step :: rest) i st =
      ({ st with execCalls := st.execCalls + 1,
                 snapCalls := st.snapCalls + 1,
                 events := st.events ++
                   [PlannerEvent.stepStart i, PlannerEvent.stepComplete false],
                 history := st.history ++
                   [{ role := .user,
                      content := "## Error\nAction failed: " ++
                        errorText (env.exec st.execCalls) ++ "\n\n" ++
                        body }] }, true) := by
  cases hs : env.snap st.snapCalls with
  | ok s =>
    refine ⟨buildVerificationMessage (describeAction step.action)
      (formatSnapshot s), ?_⟩
    rw [execSteps]
    simp [pushEvent, pushMsg, hfail, acquireErrorSnapshot, getSnapshotOnce, hs]
  | error e =>
    refine ⟨buildVerificationMessage (describeAction step.action)
      (formatSnapshot errorPlaceholder), ?_⟩
    rw [execSteps]
    simp [pushEvent, pushMsg, hfail, acquireErrorSnapshot, getSnapshotOnce, hs]

theorem execSteps_verify_head (env : PlannerEnv) (step : PlannedStep)
    (rest : List PlannedStep) (i : Nat) (st : PlannerState)
    (hsucc : (env.exec st.execCalls).success = true)
    (hsv : shouldVerifyStep step = true)
    (hrest : rest ≠ []) :
    ∃ snapText k, 1 ≤ k ∧ k ≤ 2 ∧
      execSteps env (step :: rest) i st =
      ({ st with execCalls := st.execCalls + 1,
                 snapCalls := st.snapCalls + k,
                 events := st.events ++
                   [PlannerEvent.stepStart i, PlannerEvent.stepComplete true],
                 history := st.history ++
                   [{ role := .user,
                      content := buildVerificationMessage
                        (describeAction step.action) snapText }] }, true) := by
  obtain ⟨r0, rtail, rfl⟩ : ∃ a l, rest = a :: l := by
    cases rest with
    | nil => exact absurd rfl hrest
    | cons a l => exact ⟨a, l, rfl⟩
  cases hs : env.snap st.snapCalls with
  | ok s =>
    refine ⟨formatSnapshot s, 1, by omega, by omega, ?_⟩
    rw [execSteps]
    simp [pushEvent, pushMsg, hsucc, hsv, acquireVerifySnapshot,
      getSnapshotOnce, hs]
  | error e =>
    cases hs2 : env.snap (st.snapCalls + 1) with
    | ok s2 =>
      refine ⟨formatSnapshot s2, 2, by omega, by omega, ?_⟩
      rw [execSteps]
      simp [pushEvent, pushMsg, hsucc, hsv, acquireVerifySnapshot,
        getSnapshotOnce, hs, hs2]
    | error e2 =>
      refine ⟨formatSnapshot loadingPlaceholder, 2, by omega, by omega, ?_⟩
      rw [execSteps]
      simp [pushEvent, pushMsg, hsucc, hsv, acquireVerifySnapshot,
        getSnapshotOnce, hs, hs2]

theorem execSteps_preserves (env : PlannerEnv) :
    ∀ (steps : List PlannedStep) (i : Nat) (st : PlannerState),
    (execSteps env steps i st).1.planCalls = st.planCalls ∧
    countCompleted (execSteps env steps i st).1.events =
      countCompleted st.events := by
  intro steps
  induction steps with
  | nil => intro i st; exact ⟨rfl, rfl⟩
  | cons step rest ih =>
    intro i st
    by_cases hfail : (env.exec st.execCalls).success = false
    · obtain ⟨body, heq⟩ := execSteps_fail_head env step rest i st hfail
      rw [heq]
      refine ⟨rfl, ?_⟩
      show countCompleted (st.events ++ _) = countCompleted st.events
      rw [countCompleted_append]
      rfl
    · have hsucc : (env.exec st.execCalls).success = true := by
        revert hfail
        cases (env.exec st.execCalls).success <;> simp
      by_cases hrest : rest = []
      · subst hrest
        rw [execSteps]
        have hcond : ¬((env.exec (pushEvent (.stepStart i) st).execCalls).success
            = false) := by
          show ¬((env.exec st.execCalls).success = false)
          simp [hsucc]
        rw [if_neg hcond]
        have hcond2 :
            ¬((shouldVerifyStep step && !([] : List PlannedStep).isEmpty) = true)
            := by simp
        rw [if_neg hcond2]
        refine ⟨rfl, ?_⟩
        show countCompleted ((st.events ++ _) ++ _) = countCompleted st.events
        rw [countCompleted_append, countCompleted_append]
        rfl
      · by_cases hsv : shouldVerifyStep step = true
        · obtain ⟨snapText, k, _, _, heq⟩ :=
            execSteps_verify_head env step rest i st hsucc hsv hrest
          rw [heq]
          refine ⟨rfl, ?_⟩
          show countCompleted (st.events ++ _) = countCompleted st.events
          rw [countCompleted_append]
          rfl
        · have hsvf : shouldVerifyStep step = false := by
            revert hsv
            cases shouldVerifyStep step <;> simp
          obtain ⟨evs, hevs0, heq⟩ := execSteps_skip_pre env [step] rest i st
            (by
              intro j hj
              have hj0 : j = 0 := by simpa using hj
              subst hj0
              exact ⟨by simpa using hsucc, by simpa using hsvf⟩)
          rw [List.singleton_append] at heq
          simp only [List.length_cons, List.length_nil, Nat.zero_add] at heq
          rw [heq]
          have hres := ih (i + 1)
            { st with execCalls := st.execCalls + 1, events := st.events ++ evs }
          refine ⟨?_, ?_⟩
          · rw [hres.1]
          · rw [hres.2]
            show countCompleted (st.events ++ evs) = countCompleted st.events
            rw [countCompleted_append, hevs0]
            omega

/-! #### Iteration-level lemmas (claims C4, C5) -/

theorem acquireTop_fields (env : PlannerEnv) (st : PlannerState) :
    (acquireTopSnapshot env st).2.planCalls = st.planCalls ∧
    (acquireTopSnapshot env st).2.execCalls = st.execCalls ∧
    (acquireTopSnapshot env st).2.events = st.events ∧
    (acquireTopSnapshot env st).2.history = st.history := by
  obtain ⟨k, _, _, h⟩ := acquireTopSnapshot_state env st
  rw [h]
  exact ⟨rfl, rfl, rfl, rfl⟩

theorem acquireVerify_fields (env : PlannerEnv) (st : PlannerState) :
    (acquireVerifySnapshot env st).2.planCalls = st.planCalls ∧
    (acquireVerifySnapshot env st).2.execCalls = st.execCalls ∧
    (acquireVerifySnapshot env st).2.events = st.events ∧
    (acquireVerifySnapshot env st).2.history = st.history := by
  obtain ⟨k, _, _, h⟩ := acquireVerifySnapshot_state env st
  rw [h]
  exact ⟨rfl, rfl, rfl, rfl⟩

theorem iterExecutePhase_fields (env : PlannerEnv) (presp : PlanResp)
    (st₄ : PlannerState) :
    (iterExecutePhase env presp st₄).planCalls = st₄.planCalls ∧
    countCompleted (iterExecutePhase env presp st₄).events =
      countCompleted st₄.events := by
  have hpres := execSteps_preserves env presp.plan.steps 0 st₄
  rw [iterExecutePhase]
  by_cases hq : (execSteps env presp.plan.steps 0 st₄).2 = true
  · simp only [hq, if_true]
    exact ⟨hpres.1, hpres.2⟩
  · have hqf : (execSteps env presp.plan.steps 0 st₄).2 = false := by
      revert hq
      cases (execSteps env presp.plan.steps 0 st₄).2 <;> simp
    simp only [hqf, Bool.false_eq_true, if_false]
    obtain ⟨k, _, _, hver⟩ :=
      acquireVerifySnapshot_state env (execSteps env presp.plan.steps 0 st₄).1
    cases hlast : presp.plan.steps.getLast? with
    | some lastStep =>
      simp only [pushMsg, hver]
      exact ⟨hpres.1, hpres.2⟩
    | none =>
      simp only [hver]
      exact ⟨hpres.1, hpres.2⟩

theorem iterPlanPhase_planCalls (env : PlannerEnv) (presp : PlanResp)
    (st₃ : PlannerState) :
    (iterPlanPhase env presp st₃).state.planCalls = st₃.planCalls := by
  rw [iterPlanPhase]
  by_cases hempty : presp.plan.steps.isEmpty = true
  · simp [hempty, IterResult.state, pushEvent, pushMsg]
  · have h2 : presp.plan.steps.isEmpty = false := by
      revert hempty
      cases presp.plan.steps.isEmpty <;> simp
    simp only [h2, Bool.false_eq_true, if_false, IterResult.state]
    have := (iterExecutePhase_fields env presp (pushEvent (.planned presp.plan)
      (pushMsg { role := .assistant, content := presp.raw } st₃))).1
    rw [this]
    rfl

theorem iterPlanPhase_countCompleted (env : PlannerEnv) (presp : PlanResp)
    (st₃ : PlannerState) :
    (∀ st', iterPlanPhase env presp st₃ = .next st' →
      countCompleted st'.events = countCompleted st₃.events) ∧
    (∀ st', iterPlanPhase env presp st₃ = .done st' →
      countCompleted st'.events = countCompleted st₃.events + 1) := by
  rw [iterPlanPhase]
  by_cases hempty : presp.plan.steps.isEmpty = true
  · simp only [hempty, if_true]
    constructor
    · intro st' h
      cases h
    · intro st' h
      cases h
      simp [pushEvent, pushMsg, countCompleted_append, countCompleted,
        isCompleted]
  · have h2 : presp.plan.steps.isEmpty = false := by
      revert hempty
      cases presp.plan.steps.isEmpty <;> simp
    simp only [h2, Bool.false_eq_true, if_false]
    constructor
    · intro st' h
      cases h
      have := (iterExecutePhase_fields env presp (pushEvent (.planned presp.plan)
        (pushMsg { role := .assistant, content := presp.raw } st₃))).2
      rw [this]
      simp [pushEvent, pushMsg, countCompleted_append, countCompleted,
        isCompleted]
    · intro st' h
      cases h

theorem iterComposePhase_planCalls (env : PlannerEnv) (task : String)
    (it : Nat) (snap : PageSnapshot) (st₁ : PlannerState) :
    (iterComposePhase env task it snap st₁).state.planCalls =
      st₁.planCalls + 1 := by
  rw [iterComposePhase]
  by_cases hit : it = 0 <;> simp only [hit, if_true, if_false, reduceIte] <;>
    first
    | (cases hplan : env.plan (pushMsg { role := .user,
                                           content := buildUserMessage task
                                             (formatSnapshot snap) }
          st₁).planCalls with
       | error e => simp [IterResult.state, pushEvent, pushMsg]
       | ok presp =>
         rw [iterPlanPhase_planCalls]
         simp [pushMsg])
    | (cases hplan : env.plan st₁.planCalls with
       | error e => simp [IterResult.state, pushEvent]
       | ok presp =>
         rw [iterPlanPhase_planCalls])

theorem iterComposePhase_countCompleted (env : PlannerEnv) (task : String)
    (it : Nat) (snap : PageSnapshot) (st₁ : PlannerState) :
    (∀ st', iterComposePhase env task it snap st₁ = .next st' →
      countCompleted st'.events = countCompleted st₁.events) ∧
    (∀ st', iterComposePhase env task it snap st₁ = .done st' →
      countCompleted st'.events ≤ countCompleted st₁.events + 1) := by
  rw [iterComposePhase]
  by_cases hit : it = 0 <;> simp only [hit, if_true, if_false, reduceIte] <;>
    first
    | (cases hplan : env.plan (pushMsg { role := .user,
                                           content := buildUserMessage task
                                             (formatSnapshot snap) }
          st₁).planCalls with
       | error e =>
         constructor
         · intro st' h
           cases h
         · intro st' h
           cases h
           simp [pushEvent, pushMsg, countCompleted_append, countCompleted,
             isCompleted]
       | ok presp =>
         have hcc := iterPlanPhase_countCompleted env presp
           { pushMsg { role := .user,
                       content := buildUserMessage task (formatSnapshot snap) }
               st₁ with
             planCalls := (pushMsg { role := .user,
                                     content := buildUserMessage task
                                       (formatSnapshot snap) }
               st₁).planCalls + 1 }
         constructor
         · intro st' h
           have := hcc.1 st' h
           rw [this]
           simp [pushMsg, countCompleted]
         · intro st' h
           have := hcc.2 st' h
           rw [this]
           simp [pushMsg, countCompleted])
    | (cases hplan : env.plan st₁.planCalls with
       | error e =>
         constructor
         · intro st' h
           cases h
         · intro st' h
           cases h
           simp [pushEvent, countCompleted_append, countCompleted, isCompleted]
       | ok presp =>
         have hcc := iterPlanPhase_countCompleted env presp
           { st₁ with planCalls := st₁.planCalls + 1 }
         constructor
         · intro st' h
           have := hcc.1 st' h
           rw [this]
         · intro st' h
           have := hcc.2 st' h
           rw [this])

theorem iteratePlanner_planCalls_ok (env : PlannerEnv) (task : String)
    (it : Nat) (st : PlannerState) (s : PageSnapshot)
    (hsnap : (acquireTopSnapshot env st).1 = Except.ok s) :
    (iteratePlanner env task it st).state.planCalls = st.planCalls + 1 := by
  rcases hacq : acquireTopSnapshot env st with ⟨res, st₁⟩
  rw [hacq] at hsnap
  have hres : res = Except.ok s := hsnap
  subst hres
  rw [iteratePlanner, hacq]
  show (iterComposePhase env task it s st₁).state.planCalls = st.planCalls + 1
  rw [iterComposePhase_planCalls]
  have hpc := (acquireTop_fields env st).1
  rw [hacq] at hpc
  rw [hpc]

theorem iteratePlanner_countCompleted (env : PlannerEnv) (task : String)
    (it : Nat) (st : PlannerState) :
    (∀ st', iteratePlanner env task it st = .next st' →
      countCompleted st'.events = countCompleted st.events) ∧
    (∀ st', iteratePlanner env task it st = .done st' →
      countCompleted st'.events ≤ countCompleted st.events + 1) := by
  rcases hacq : acquireTopSnapshot env st with ⟨res, st₁⟩
  have hev : st₁.events = st.events := by
    have := (acquireTop_fields env st).2.2.1
    rw [hacq] at this
    exact this
  rw [iteratePlanner, hacq]
  cases res with
  | error e =>
    constructor
    · intro st' h
      cases h
    · intro st' h
      cases h
      simp [pushEvent, countCompleted_append, countCompleted, isCompleted, hev]
  | ok s =>
    have hcc := iterComposePhase_countCompleted env task it s st₁
    constructor
    · intro st' h
      rw [hcc.1 st' h, hev]
    · intro st' h
      have := hcc.2 st' h
      rw [hev] at this
      exact this

theorem runPlannerAux_atMostOne (env : PlannerEnv) (task : String) :
    ∀ (fuel it : Nat) (st : PlannerState),
    countCompleted (runPlannerAux env task fuel it st).events ≤
      countCompleted st.events + 1 := by
  intro fuel
  induction fuel with
  | zero =>
    intro it st
    rw [runPlannerAux]
    simp [pushEvent, countCompleted_append, countCompleted, isCompleted]
  | succ f ih =>
    intro it st
    rw [runPlannerAux]
    cases h : iteratePlanner env task it st with
    | done stF => exact (iteratePlanner_countCompleted env task it st).2 stF h
    | next stN =>
      have heq := (iteratePlanner_countCompleted env task it st).1 stN h
      calc countCompleted (runPlannerAux env task f (it + 1) stN).events
          ≤ countCompleted stN.events + 1 := ih (it + 1) stN
        _ = countCompleted st.events + 1 := by rw [heq]

theorem runPlanner_completed_at_most_once (env : PlannerEnv) (task : String) :
    countCompleted (runPlanner env task).events ≤ 1 := by
  have := runPlannerAux_atMostOne env task MAX_ITERATIONS 0 initialPlannerState
  simpa [initialPlannerState, countCompleted] using this

/-! #### Claim C5 -/

/-- C5: when the model returns a valid plan with an empty steps list,
the run terminates successfully on that same iteration: the iteration
ends in the done state having invoked the completion observer exactly
once with the reasoning string of the plan, the rest of the run performs no
further model calls or action executions, and a whole run never invokes
the completion observer more than once. -/
theorem empty_plan_completes_run (env : PlannerEnv) (task : String)
    (fuel it : Nat) (st : PlannerState) (s : PageSnapshot) (presp : PlanResp)
    (hsnap : (acquireTopSnapshot env st).1 = Except.ok s)
    (hplan : env.plan st.planCalls = Except.ok presp)
    (hempty : presp.plan.steps = []) :
    ∃ stF, iteratePlanner env task it st = .done stF ∧
      runPlannerAux env task (fuel + 1) it st = stF ∧
      stF.planCalls = st.planCalls + 1 ∧
      stF.execCalls = st.execCalls ∧
      stF.events = st.events ++
        [PlannerEvent.planned presp.plan,
         PlannerEvent.completed presp.plan.reasoning] ∧
      countCompleted stF.events = countCompleted st.events + 1 ∧
      countCompleted (runPlanner env task).events ≤ 1 := by
  rcases hacq : acquireTopSnapshot env st with ⟨res, st₁⟩
  rw [hacq] at hsnap
  have hres : res = Except.ok s := hsnap
  subst hres
  have hflds := acquireTop_fields env st
  rw [hacq] at hflds
  obtain ⟨hpc₁, hec₁, hev₁, hh₁⟩ := hflds
  simp only [Prod.snd] at hpc₁ hec₁ hev₁ hh₁
  have hpc₂ : (if it = 0 then pushMsg (LLMMessage.mk Role.user
      (buildUserMessage task (formatSnapshot s))) st₁
      else st₁).planCalls = st.planCalls := by
    by_cases hit : it = 0 <;> simp [hit, pushMsg, hpc₁]
  have hec₂ : (if it = 0 then pushMsg (LLMMessage.mk Role.user
      (buildUserMessage task (formatSnapshot s))) st₁
      else st₁).execCalls = st.execCalls := by
    by_cases hit : it = 0 <;> simp [hit, pushMsg, hec₁]
  have hev₂ : (if it = 0 then pushMsg (LLMMessage.mk Role.user
      (buildUserMessage task (formatSnapshot s))) st₁
      else st₁).events = st.events := by
    by_cases hit : it = 0 <;> simp [hit, pushMsg, hev₁]
  have hiter : iteratePlanner env task it st =
      .done (pushEvent (.completed presp.plan.reasoning)
        (pushEvent (.planned presp.plan)
          (pushMsg (LLMMessage.mk Role.assistant presp.raw)
            { (if it = 0 then pushMsg (LLMMessage.mk Role.user
                (buildUserMessage task (formatSnapshot s))) st₁
                else st₁) with
              planCalls := (if it = 0 then pushMsg (LLMMessage.mk Role.user
                (buildUserMessage task (formatSnapshot s))) st₁
                else st₁).planCalls + 1 }))) := by
    rw [iteratePlanner, hacq]
    show iterComposePhase env task it s st₁ = _
    rw [iterComposePhase]
    simp only [hpc₂, hplan]
    rw [iterPlanPhase]
    simp only [hempty, List.isEmpty_nil, if_true]
  refine ⟨_, hiter, ?_, ?_, ?_, ?_, ?_,
    runPlanner_completed_at_most_once env task⟩
  · rw [runPlannerAux, hiter]
  · simp only [pushEvent, pushMsg]
    by_cases hit : it = 0 <;> simp [hit, hpc₁]
  · simp only [pushEvent, pushMsg]
    by_cases hit : it = 0 <;> simp [hit, hec₁]
  · simp only [pushEvent, pushMsg]
    by_cases hit : it = 0 <;> simp [hit, hev₁]
  · simp only [pushEvent, pushMsg]
    by_cases hit : it = 0 <;>
      simp [hit, hev₁, countCompleted_append, countCompleted, isCompleted]

/-! #### Claim C4 -/

theorem execSteps_fail_at (env : PlannerEnv) (pre : List PlannedStep)
    (step : PlannedStep) (post : List PlannedStep) (st₀ : PlannerState)
    (hpre : ∀ j (hj : j < pre.length),
      (env.exec (st₀.execCalls + j)).success = true ∧
      shouldVerifyStep (pre.get ⟨j, hj⟩) = false)
    (hfail : (env.exec (st₀.execCalls + pre.length)).success = false) :
    ∃ stB body, execSteps env (pre ++ step :: post) 0 st₀ = (stB, true) ∧
      stB.execCalls = st₀.execCalls + pre.length + 1 ∧
      stB.planCalls = st₀.planCalls ∧
      stB.history = st₀.history ++
        [LLMMessage.mk Role.user ("## Error\nAction failed: " ++
          errorText (env.exec (st₀.execCalls + pre.length)) ++ "\n\n" ++
          body)] := by
  obtain ⟨evs, hevs0, heq⟩ := execSteps_skip_pre env pre (step :: post) 0 st₀
    hpre
  obtain ⟨body, hfl⟩ := execSteps_fail_head env step post pre.length
    { st₀ with execCalls := st₀.execCalls + pre.length,
               events := st₀.events ++ evs }
    (by
      show (env.exec (st₀.execCalls + pre.length)).success = false
      exact hfail)
  refine ⟨⟨st₀.snapCalls + 1, st₀.planCalls, st₀.execCalls + pre.length + 1,
    st₀.history ++ [LLMMessage.mk Role.user ("## Error\nAction failed: " ++
      errorText (env.exec (st₀.execCalls + pre.length)) ++ "\n\n" ++ body)],
    (st₀.events ++ evs) ++ [PlannerEvent.stepStart pre.length,
      PlannerEvent.stepComplete false]⟩, body, ?_, rfl, rfl, rfl⟩
  rw [heq]
  simp only [Nat.zero_add]
  rw [hfl]

/-- C4: when a step of a batch reports `success:false`, no subsequent
step of the batch is executed, exactly one error-context user message is
appended to the conversation, the iteration ends in the replan state,
and the planner performs a fresh model call on the next iteration. -/
theorem step_failure_stops_batch (env : PlannerEnv) (task : String)
    (it : Nat) (st : PlannerState) (s : PageSnapshot) (presp : PlanResp)
    (pre post : List PlannedStep) (step : PlannedStep)
    (hsnap : (acquireTopSnapshot env st).1 = Except.ok s)
    (hplan : env.plan st.planCalls = Except.ok presp)
    (hsteps : presp.plan.steps = pre ++ step :: post)
    (hpre : ∀ j (hj : j < pre.length),
      (env.exec (st.execCalls + j)).success = true ∧
      shouldVerifyStep (pre.get ⟨j, hj⟩) = false)
    (hfail : (env.exec (st.execCalls + pre.length)).success = false) :
    (∀ st₀ : PlannerState, st₀.execCalls = st.execCalls →
      ∃ stB body, execSteps env (pre ++ step :: post) 0 st₀ = (stB, true) ∧
        stB.execCalls = st₀.execCalls + pre.length + 1 ∧
        stB.history = st₀.history ++
          [LLMMessage.mk Role.user ("## Error\nAction failed: " ++
            errorText (env.exec (st.execCalls + pre.length)) ++ "\n\n" ++
            body)]) ∧
    (∃ stN, iteratePlanner env task it st = .next stN ∧
      stN.planCalls = st.planCalls + 1 ∧
      stN.execCalls = st.execCalls + pre.length + 1 ∧
      (∀ s₂, (acquireTopSnapshot env stN).1 = Except.ok s₂ →
        (iteratePlanner env task (it + 1) stN).state.planCalls =
          stN.planCalls + 1)) := by
  have hbatch : ∀ st₀ : PlannerState, st₀.execCalls = st.execCalls →
      ∃ stB body, execSteps env (pre ++ step :: post) 0 st₀ = (stB, true) ∧
        stB.execCalls = st₀.execCalls + pre.length + 1 ∧
        stB.planCalls = st₀.planCalls ∧
        stB.history = st₀.history ++
          [LLMMessage.mk Role.user ("## Error\nAction failed: " ++
            errorText (env.exec (st.execCalls + pre.length)) ++ "\n\n" ++
            body)] := by
    intro st₀ hec
    have := execSteps_fail_at env pre step post st₀
      (by rw [hec]; exact hpre) (by rw [hec]; exact hfail)
    rw [hec] at this
    obtain ⟨stB, body, h1, h2, h3, h4⟩ := this
    exact ⟨stB, body, h1, by rw [hec]; exact h2, h3, h4⟩
  refine ⟨fun st₀ h => by
    obtain ⟨stB, body, h1, h2, _, h4⟩ := hbatch st₀ h
    exact ⟨stB, body, h1, h2, h4⟩, ?_⟩
  rcases hacq : acquireTopSnapshot env st with ⟨res, st₁⟩
  rw [hacq] at hsnap
  have hres : res = Except.ok s := hsnap
  subst hres
  have hflds := acquireTop_fields env st
  rw [hacq] at hflds
  obtain ⟨hpc₁, hec₁, hev₁, hh₁⟩ := hflds
  simp only [Prod.snd] at hpc₁ hec₁ hev₁ hh₁
  have hpc₂ : (if it = 0 then pushMsg (LLMMessage.mk Role.user
      (buildUserMessage task (formatSnapshot s))) st₁
      else st₁).planCalls = st.planCalls := by
    by_cases hit : it = 0 <;> simp [hit, pushMsg, hpc₁]
  have hne : presp.plan.steps.isEmpty = false := by
    rw [hsteps]
    cases pre <;> simp
  have hiter1 : iteratePlanner env task it st =
      iterComposePhase env task it s st₁ := by
    rw [iteratePlanner, hacq]
  have hiter2 : iterComposePhase env task it s st₁ =
      iterPlanPhase env presp
        { (if it = 0 then pushMsg (LLMMessage.mk Role.user
            (buildUserMessage task (formatSnapshot s))) st₁ else st₁) with
          planCalls := (if it = 0 then pushMsg (LLMMessage.mk Role.user
            (buildUserMessage task (formatSnapshot s))) st₁
            else st₁).planCalls + 1 } := by
    rw [iterComposePhase]
    simp only [hpc₂, hplan]
  set st₃ : PlannerState :=
    { (if it = 0 then pushMsg (LLMMessage.mk Role.user
        (buildUserMessage task (formatSnapshot s))) st₁ else st₁) with
      planCalls := (if it = 0 then pushMsg (LLMMessage.mk Role.user
        (buildUserMessage task (formatSnapshot s))) st₁
        else st₁).planCalls + 1 } with hst₃
  set st₄ : PlannerState := pushEvent (.planned presp.plan)
    (pushMsg (LLMMessage.mk Role.assistant presp.raw) st₃) with hst₄
  have hiter3 : iterPlanPhase env presp st₃ =
      .next (iterExecutePhase env presp st₄) := by
    rw [iterPlanPhase]
    simp only [hne, Bool.false_eq_true, if_false]
  have hec₄ : st₄.execCalls = st.execCalls := by
    rw [hst₄, hst₃]
    by_cases hit : it = 0 <;> simp [hit, pushEvent, pushMsg, hec₁]
  have hpc₄ : st₄.planCalls = st.planCalls + 1 := by
    rw [hst₄, hst₃]
    by_cases hit : it = 0 <;> simp [hit, pushEvent, pushMsg, hpc₁]
  obtain ⟨stB, body, hq, hqe, hqp, hqh⟩ := hbatch st₄ hec₄
  have hexec : iterExecutePhase env presp st₄ =
      { stB with history := trimConversation stB.history 14 } := by
    rw [iterExecutePhase, hsteps]
    rw [hq]
    simp
  refine ⟨{ stB with history := trimConversation stB.history 14 },
    by rw [hiter1, hiter2, hiter3, hexec], ?_, ?_, ?_⟩
  · show stB.planCalls = st.planCalls + 1
    rw [hqp, hpc₄]
  · show stB.execCalls = st.execCalls + pre.length + 1
    rw [hqe, hec₄]
  · intro s₂ hs₂
    exact iteratePlanner_planCalls_ok env task (it + 1) _ s₂ hs₂

/-! #### Claim C3 -/

theorem execSteps_verify_at (env : PlannerEnv) (pre : List PlannedStep)
    (step : PlannedStep) (post : List PlannedStep) (st₀ : PlannerState)
    (hpre : ∀ j (hj : j < pre.length),
      (env.exec (st₀.execCalls + j)).success = true ∧
      shouldVerifyStep (pre.get ⟨j, hj⟩) = false)
    (hsucc : (env.exec (st₀.execCalls + pre.length)).success = true)
    (hsv : shouldVerifyStep step = true)
    (hpost : post ≠ []) :
    ∃ stB snapText k, 1 ≤ k ∧ k ≤ 2 ∧
      execSteps env (pre ++ step :: post) 0 st₀ = (stB, true) ∧
      stB.execCalls = st₀.execCalls + pre.length + 1 ∧
      stB.planCalls = st₀.planCalls ∧
      stB.snapCalls = st₀.snapCalls + k ∧
      stB.history = st₀.history ++
        [LLMMessage.mk Role.user (buildVerificationMessage
          (describeAction step.action) snapText)] := by
  obtain ⟨evs, hevs0, heq⟩ := execSteps_skip_pre env pre (step :: post) 0 st₀
    hpre
  obtain ⟨snapText, k, hk1, hk2, hvh⟩ := execSteps_verify_head env step post
    pre.length
    { st₀ with execCalls := st₀.execCalls + pre.length,
               events := st₀.events ++ evs }
    (by
      show (env.exec (st₀.execCalls + pre.length)).success = true
      exact hsucc)
    hsv hpost
  refine ⟨⟨st₀.snapCalls + k, st₀.planCalls, st₀.execCalls + pre.length + 1,
    st₀.history ++ [LLMMessage.mk Role.user (buildVerificationMessage
      (describeAction step.action) snapText)],
    (st₀.events ++ evs) ++ [PlannerEvent.stepStart pre.length,
      PlannerEvent.stepComplete true]⟩, snapText, k, hk1, hk2, ?_,
    rfl, rfl, rfl, rfl⟩
  rw [heq]
  simp only [Nat.zero_add]
  rw [hvh]

/-- C3: a click step whose `needsVerification` flag was explicitly set
to `false` by the model, when it succeeds and is not the last step of
its batch, still triggers a verification snapshot and a verification
turn and stops execution of the remaining steps, because the kind-based
default overrides the flag; the iteration then ends in the replan
state. -/
theorem click_forces_verification (env : PlannerEnv) (task : String)
    (it : Nat) (st : PlannerState) (s : PageSnapshot) (presp : PlanResp)
    (pre post : List PlannedStep) (step : PlannedStep) (r : String)
    (hsnap : (acquireTopSnapshot env st).1 = Except.ok s)
    (hplan : env.plan st.planCalls = Except.ok presp)
    (hsteps : presp.plan.steps = pre ++ step :: post)
    (hclick : step.action = Action.click r)
    (hflag : step.needsVerification = false)
    (hpre : ∀ j (hj : j < pre.length),
      (env.exec (st.execCalls + j)).success = true ∧
      shouldVerifyStep (pre.get ⟨j, hj⟩) = false)
    (hsucc : (env.exec (st.execCalls + pre.length)).success = true)
    (hpost : post ≠ []) :
    (∀ st₀ : PlannerState, st₀.execCalls = st.execCalls →
      ∃ stB snapText k, 1 ≤ k ∧ k ≤ 2 ∧
        execSteps env (pre ++ step :: post) 0 st₀ = (stB, true) ∧
        stB.execCalls = st₀.execCalls + pre.length + 1 ∧
        stB.snapCalls = st₀.snapCalls + k ∧
        stB.history = st₀.history ++
          [LLMMessage.mk Role.user (buildVerificationMessage
            (describeAction step.action) snapText)]) ∧
    (∃ stN, iteratePlanner env task it st = .next stN ∧
      stN.execCalls = st.execCalls + pre.length + 1 ∧
      stN.planCalls = st.planCalls + 1) := by
  have hsv : shouldVerifyStep step = true := by
    simp [shouldVerifyStep, hflag, hclick, actionNeedsVerification]
  have hbatch : ∀ st₀ : PlannerState, st₀.execCalls = st.execCalls →
      ∃ stB snapText k, 1 ≤ k ∧ k ≤ 2 ∧
        execSteps env (pre ++ step :: post) 0 st₀ = (stB, true) ∧
        stB.execCalls = st₀.execCalls + pre.length + 1 ∧
        stB.planCalls = st₀.planCalls ∧
        stB.snapCalls = st₀.snapCalls + k ∧
        stB.history = st₀.history ++
          [LLMMessage.mk Role.user (buildVerificationMessage
            (describeAction step.action) snapText)] := by
    intro st₀ hec
    exact execSteps_verify_at env pre step post st₀
      (by rw [hec]; exact hpre) (by rw [hec]; exact hsucc) hsv hpost
  refine ⟨fun st₀ h => by
    obtain ⟨stB, snapText, k, hk1, hk2, h1, h2, _, h4, h5⟩ := hbatch st₀ h
    exact ⟨stB, snapText, k, hk1, hk2, h1, h2, h4, h5⟩, ?_⟩
  rcases hacq : acquireTopSnapshot env st with ⟨res, st₁⟩
  rw [hacq] at hsnap
  have hres : res = Except.ok s := hsnap
  subst hres
  have hflds := acquireTop_fields env st
  rw [hacq] at hflds
  obtain ⟨hpc₁, hec₁, hev₁, hh₁⟩ := hflds
  simp only [Prod.snd] at hpc₁ hec₁ hev₁ hh₁
  have hpc₂ : (if it = 0 then pushMsg (LLMMessage.mk Role.user
      (buildUserMessage task (formatSnapshot s))) st₁
      else st₁).planCalls = st.planCalls := by
    by_cases hit : it = 0 <;> simp [hit, pushMsg, hpc₁]
  have hne : presp.plan.steps.isEmpty = false := by
    rw [hsteps]
    cases pre <;> simp
  have hiter1 : iteratePlanner env task it st =
      iterComposePhase env task it s st₁ := by
    rw [iteratePlanner, hacq]
  have hiter2 : iterComposePhase env task it s st₁ =
      iterPlanPhase env presp
        { (if it = 0 then pushMsg (LLMMessage.mk Role.user
            (buildUserMessage task (formatSnapshot s))) st₁ else st₁) with
          planCalls := (if it = 0 then pushMsg (LLMMessage.mk Role.user
            (buildUserMessage task (formatSnapshot s))) st₁
            else st₁).planCalls + 1 } := by
    rw [iterComposePhase]
    simp only [hpc₂, hplan]
  set st₃ : PlannerState :=
    { (if it = 0 then pushMsg (LLMMessage.mk Role.user
        (buildUserMessage task (formatSnapshot s))) st₁ else st₁) with
      planCalls := (if it = 0 then pushMsg (LLMMessage.mk Role.user
        (buildUserMessage task (formatSnapshot s))) st₁
        else st₁).planCalls + 1 } with hst₃
  set st₄ : PlannerState := pushEvent (.planned presp.plan)
    (pushMsg (LLMMessage.mk Role.assistant presp.raw) st₃) with hst₄
  have hiter3 : iterPlanPhase env presp st₃ =
      .next (iterExecutePhase env presp st₄) := by
    rw [iterPlanPhase]
    simp only [hne, Bool.false_eq_true, if_false]
  have hec₄ : st₄.execCalls = st.execCalls := by
    rw [hst₄, hst₃]
    by_cases hit : it = 0 <;> simp [hit, pushEvent, pushMsg, hec₁]
  have hpc₄ : st₄.planCalls = st.planCalls + 1 := by
    rw [hst₄, hst₃]
    by_cases hit : it = 0 <;> simp [hit, pushEvent, pushMsg, hpc₁]
  obtain ⟨stB, snapText, k, hk1, hk2, hq, hqe, hqp, hqs, hqh⟩ :=
    hbatch st₄ hec₄
  have hexec : iterExecutePhase env presp st₄ =
      { stB with history := trimConversation stB.history 14 } := by
    rw [iterExecutePhase, hsteps]
    rw [hq]
    simp
  refine ⟨{ stB with history := trimConversation stB.history 14 },
    by rw [hiter1, hiter2, hiter3, hexec], ?_, ?_⟩
  · show stB.execCalls = st.execCalls + pre.length + 1
    rw [hqe, hec₄]
  · show stB.planCalls = st.planCalls + 1
    rw [hqp, hpc₄]

/-- C5 witness at a concrete input. -/
theorem empty_plan_completes_run_witness :
    (acquireTopSnapshot emptyPlanEnv initialPlannerState).1 =
      Except.ok sampleSnap ∧
    emptyPlanEnv.plan initialPlannerState.planCalls =
      Except.ok { plan := { steps := [], reasoning := "done" }, raw := "raw" } ∧
    ({ plan := { steps := [], reasoning := "done" },
       raw := "raw" } : PlanResp).plan.steps = [] ∧
    (∃ stF, iteratePlanner emptyPlanEnv "task" 0 initialPlannerState =
        .done stF ∧
      runPlannerAux emptyPlanEnv "task" (14 + 1) 0 initialPlannerState = stF ∧
      stF.planCalls = initialPlannerState.planCalls + 1 ∧
      stF.execCalls = initialPlannerState.execCalls ∧
      stF.events = initialPlannerState.events ++
        [PlannerEvent.planned { steps := [], reasoning := "done" },
         PlannerEvent.completed "done"] ∧
      countCompleted stF.events =
        countCompleted initialPlannerState.events + 1 ∧
      countCompleted (runPlanner emptyPlanEnv "task").events ≤ 1) :=
  ⟨rfl, rfl, rfl,
    empty_plan_completes_run emptyPlanEnv "task" 14 0 initialPlannerState
      sampleSnap { plan := { steps := [], reasoning := "done" }, raw := "raw" }
      rfl rfl rfl⟩

/-- C4 witness at a concrete input. -/
theorem step_failure_stops_batch_witness :
    (acquireTopSnapshot failStepEnv initialPlannerState).1 =
      Except.ok sampleSnap ∧
    failStepEnv.plan initialPlannerState.planCalls =
      Except.ok { plan := { steps := [sampleWaitStep, sampleWaitStep],
                            reasoning := "r" }, raw := "raw" } ∧
    (failStepEnv.exec (initialPlannerState.execCalls + 0)).success = false ∧
    (∃ stB body, execSteps failStepEnv [sampleWaitStep, sampleWaitStep] 0
        initialPlannerState = (stB, true) ∧
      stB.execCalls = initialPlannerState.execCalls + 0 + 1 ∧
      stB.history = initialPlannerState.history ++
        [LLMMessage.mk Role.user ("## Error\nAction failed: " ++
          errorText (failStepEnv.exec (initialPlannerState.execCalls + 0)) ++
          "\n\n" ++ body)]) ∧
    (∃ stN, iteratePlanner failStepEnv "task" 0 initialPlannerState =
        .next stN ∧
      stN.planCalls = initialPlannerState.planCalls + 1 ∧
      stN.execCalls = initialPlannerState.execCalls + 0 + 1 ∧
      (∀ s₂, (acquireTopSnapshot failStepEnv stN).1 = Except.ok s₂ →
        (iteratePlanner failStepEnv "task" (0 + 1) stN).state.planCalls =
          stN.planCalls + 1)) := by
  have H := step_failure_stops_batch failStepEnv "task" 0 initialPlannerState
    sampleSnap
    { plan := { steps := [sampleWaitStep, sampleWaitStep], reasoning := "r" },
      raw := "raw" }
    [] [sampleWaitStep] sampleWaitStep rfl rfl rfl
    (fun j hj => absurd hj (by simp)) rfl
  exact ⟨rfl, rfl, rfl, H.1 initialPlannerState rfl, H.2⟩

/-- C3 witness at a concrete input. -/
theorem click_forces_verification_witness :
    (acquireTopSnapshot clickBatchEnv initialPlannerState).1 =
      Except.ok sampleSnap ∧
    clickBatchEnv.plan initialPlannerState.planCalls =
      Except.ok { plan := { steps := [sampleClickStep, sampleWaitStep],
                            reasoning := "r" }, raw := "raw" } ∧
    sampleClickStep.action = Action.click "e7" ∧
    sampleClickStep.needsVerification = false ∧
    (clickBatchEnv.exec (initialPlannerState.execCalls + 0)).success = true ∧
    (∃ stB snapText k, 1 ≤ k ∧ k ≤ 2 ∧
      execSteps clickBatchEnv [sampleClickStep, sampleWaitStep] 0
        initialPlannerState = (stB, true) ∧
      stB.execCalls = initialPlannerState.execCalls + 0 + 1 ∧
      stB.snapCalls = initialPlannerState.snapCalls + k ∧
      stB.history = initialPlannerState.history ++
        [LLMMessage.mk Role.user (buildVerificationMessage
          (describeAction sampleClickStep.action) snapText)]) ∧
    (∃ stN, iteratePlanner clickBatchEnv "task" 0 initialPlannerState =
        .next stN ∧
      stN.execCalls = initialPlannerState.execCalls + 0 + 1 ∧
      stN.planCalls = initialPlannerState.planCalls + 1) := by
  have H := click_forces_verification clickBatchEnv "task" 0
    initialPlannerState sampleSnap
    { plan := { steps := [sampleClickStep, sampleWaitStep], reasoning := "r" },
      raw := "raw" }
    [] [sampleWaitStep] sampleClickStep "e7" rfl rfl rfl rfl rfl
    (fun j hj => absurd hj (by simp)) rfl (by simp)
  exact ⟨rfl, rfl, rfl, rfl, rfl, H.1 initialPlannerState rfl, H.2⟩

/-! #### Claim C9 -/

/-- C9 counterexample: iteration 0 succeeds fully (plan obtained, its
one step executed), then the loop-top snapshot acquisition of iteration 1
fails both attempts.  The run terminates with the terminal
cannot-read-page error mid-run — after the first iteration — with no
further model call, instead of degrading to a placeholder snapshot and
continuing as the claim requires. -/
theorem snapshot_failure_midrun_counterexample :
    (runPlanner midRunFailEnv "task").events =
      [PlannerEvent.planned { steps := [sampleWaitStep], reasoning := "r" },
       PlannerEvent.stepStart 0,
       PlannerEvent.stepComplete true,
       PlannerEvent.errored
         "Cannot read page: boom. The content script may not be loaded on this page."] ∧
    (runPlanner midRunFailEnv "task").planCalls = 1 := by
  exact ⟨rfl, rfl⟩

/-- C9 (amended): loop-top snapshot acquisition is retried exactly once
(two oracle calls), and a second failure terminates the run with the
cannot-read-page error at every iteration, not only the first; the
mid-iteration verification snapshot is retried once and then degrades to
the loading placeholder, and the post-failure snapshot is not retried,
degrading immediately to the minimal-context placeholder — in those two
cases the iteration continues instead of terminating. -/
theorem snapshot_failure_amended (env : PlannerEnv) (task : String)
    (it : Nat) (st : PlannerState) (e₁ e₂ : String)
    (h1 : env.snap st.snapCalls = Except.error e₁)
    (h2 : env.snap (st.snapCalls + 1) = Except.error e₂) :
    iteratePlanner env task it st =
      .done (pushEvent (.errored (cannotReadMsg e₂))
        { st with snapCalls := st.snapCalls + 2 }) ∧
    acquireVerifySnapshot env st =
      (loadingPlaceholder, { st with snapCalls := st.snapCalls + 2 }) ∧
    acquireErrorSnapshot env st =
      (errorPlaceholder, { st with snapCalls := st.snapCalls + 1 }) := by
  have hacq : acquireTopSnapshot env st =
      (Except.error e₂, { st with snapCalls := st.snapCalls + 2 }) := by
    rw [acquireTopSnapshot]
    simp only [getSnapshotOnce, h1, h2]
  refine ⟨?_, ?_, ?_⟩
  · rw [iteratePlanner, hacq]
  · rw [acquireVerifySnapshot]
    simp only [getSnapshotOnce, h1, h2]
  · rw [acquireErrorSnapshot]
    simp only [getSnapshotOnce, h1]

/-- C9 amended-claim witness at a concrete input. -/
theorem snapshot_failure_amended_witness :
    allSnapFailEnv.snap initialPlannerState.snapCalls =
      Except.error "down" ∧
    allSnapFailEnv.snap (initialPlannerState.snapCalls + 1) =
      Except.error "down" ∧
    (iteratePlanner allSnapFailEnv "task" 3 initialPlannerState =
      .done (pushEvent (.errored (cannotReadMsg "down"))
        { initialPlannerState with
            snapCalls := initialPlannerState.snapCalls + 2 }) ∧
    acquireVerifySnapshot allSnapFailEnv initialPlannerState =
      (loadingPlaceholder, { initialPlannerState with
        snapCalls := initialPlannerState.snapCalls + 2 }) ∧
    acquireErrorSnapshot allSnapFailEnv initialPlannerState =
      (errorPlaceholder, { initialPlannerState with
        snapCalls := initialPlannerState.snapCalls + 1 })) :=
  ⟨rfl, rfl,
    snapshot_failure_amended allSnapFailEnv "task" 3 initialPlannerState
      "down" "down" rfl rfl⟩

/-- C1 amended-claim witness at a concrete input. -/
theorem ref_invalidation_amended_witness :
    ([4, 9] : List Nat).Nodup ∧ (∀ e ∈ ([4, 9] : List Nat), (fun _ => true) e = true) ∧
    (1 : Nat) ≤ 1 ∧
    resolveRef (fun _ => true) "e9" (resetRefs initialRefState) = none ∧
    resolveRef (fun _ => true) (mkRef 1)
      (assignRefs (fun _ => true) [4, 9] (resetRefs initialRefState)).2 =
      ([4, 9] : List Nat).get? 0 :=
  ⟨by decide, by intro e _; rfl, by decide,
    (ref_invalidation_amended (fun _ => true) initialRefState [4, 9] 1
      (by decide) (by intro e _; rfl) (by decide)).1 "e9",
    (ref_invalidation_amended (fun _ => true) initialRefState [4, 9] 1
      (by decide) (by intro e _; rfl) (by decide)).2⟩

/-- C8: for each rate-limit/error classification kind, the computed
backoff wait is monotonically non-decreasing in the attempt number and
never exceeds the cap of that kind (65s for token-rate-limit, 60s for
request-rate-limit, 16s for server errors). -/
theorem backoff_monotone_and_capped (kind : ErrKind) (attempt : Nat) :
    backoffMs kind attempt ≤ backoffMs kind (attempt + 1) ∧
    backoffMs kind attempt ≤ backoffCap kind := by
  have h32 : (1 : ℚ) ≤ 3 / 2 := by norm_num
  have h2 : (1 : ℚ) ≤ 2 := by norm_num
  cases kind <;>
    refine ⟨min_le_min (mul_le_mul_of_nonneg_left
      (pow_le_pow_right₀ ?_ (Nat.le_succ attempt)) (by norm_num)) le_rfl,
      min_le_right _ _⟩
  · exact h32
  · exact h2
  · exact h2

end WebProwler
